import Mathlib

/-!
Verification of the step execution engine and synchronization pipeline of the
integration SDK.

The development shallowly embeds the TypeScript sources
`packages/integration-sdk-runtime/src/execution/dependencyGraph.ts` and
`packages/integration-sdk-runtime/src/synchronization/index.ts`.

Modelling conventions:
  * The event-driven promise-queue scheduler is modelled as a serialized
    nondeterministic scheduler: at each point an arbitrary dispatchable leaf
    (chosen by a schedule oracle) is executed atomically.  Because a step is
    dispatched only after all of its transitive dependencies have written a
    terminal result, and each step writes its own result exactly once, every
    observable read/write of the real interleaved execution is reproduced by
    some schedule of this model, for any concurrency limit of the queue.
  * External effects (execution handlers, the cache loader's file iteration,
    `jobState.flush`, `waitUntilUploadsComplete`, HTTP requests) are modelled
    by outcome oracles supplied as inputs.
  * JavaScript `Map` objects are association lists with insertion-order
    preserving `set`.
  * JSON byte sizes (`Buffer.byteLength(JSON.stringify(x))`) are computed by a
    compositional size function; strings are assumed not to require JSON
    escaping, and arrays are assumed alias-free (a JS array holding the same
    object reference twice is not representable).
-/

namespace IntegrationSdk

/-- Step result statuses.  The enum lives in `@jupiterone/integration-sdk-core`
(outside the packaged sources); the constructor set is the one listed by the
spec and used by `dependencyGraph.ts`. -/
inductive StepResultStatus where
  | SUCCESS
  | FAILURE
  | PARTIAL_SUCCESS_DUE_TO_DEPENDENCY_FAILURE
  | DISABLED
  | PENDING_EVALUATION
  | CACHED
  | SKIPPED
  | NOT_EXECUTED
deriving DecidableEq, Inhabited

/-- Declared graph-object type metadata of a step (an entry of `step.entities`,
`step.relationships` or `step.mappedRelationships`): its `_type` string and its
`partial` flag (field renamed `isPartialType` here). -/
structure StepTypeMetadata where
  typeName : String
  isPartialType : Bool
deriving DecidableEq, Inhabited

/-- A step of the dependency graph (the fields of `Step` used by the
scheduler). -/
structure StepDef where
  id : String
  name : String
  dependsOn : List String
  entities : List StepTypeMetadata
  relationships : List StepTypeMetadata
  mappedRelationships : List StepTypeMetadata
deriving DecidableEq, Inhabited

/-- Embeds `getDeclaredTypesInStep`: collects `_type` values of
`step.entities ++ step.relationships ++ step.mappedRelationships`, the second
component collecting those marked `partial` (called `partialTypes` in the
source). -/
def getDeclaredTypesInStep (step : StepDef) : List String × List String :=
  let all := step.entities ++ step.relationships ++ step.mappedRelationships
  (all.map (fun e => e.typeName),
   (all.filter (fun e => e.isPartialType)).map (fun e => e.typeName))

/-- A `StepStartState`: `{ disabled: boolean, stepCachePath?: string }`. -/
structure StartState where
  disabled : Bool
  stepCachePath : Option String
deriving DecidableEq, Inhabited

/-- A step result record (`IntegrationStepResult`); `partTypes` renders the
source's `partialTypes` field. -/
structure IntegrationStepResult where
  id : String
  name : String
  dependsOn : List String
  declaredTypes : List String
  partTypes : List String
  encounteredTypes : List String
  status : StepResultStatus
deriving DecidableEq, Inhabited

/-- JavaScript values, as far as the truthiness analysis of `hasCachePath`
needs them. -/
inductive JSVal where
  | undef
  | vnull
  | vbool (b : Bool)
  | vstr (s : String)
deriving DecidableEq, Inhabited

/-- JavaScript truthiness of a `JSVal`. -/
def jsTruthy : JSVal → Bool
  | .undef => false
  | .vnull => false
  | .vbool b => b
  | .vstr s => !s.isEmpty

/-- The JavaScript double-negation operator `!!v`: coerces to a boolean. -/
def bangBang (v : JSVal) : JSVal := JSVal.vbool (jsTruthy v)

/-- A `JSVal` is nullish when it is `undefined` or `null`. -/
def isNullish : JSVal → Bool
  | .undef => true
  | .vnull => true
  | _ => false

/-- The JavaScript nullish-coalescing operator `a ?? b`. -/
def nullishCoalesce (a b : JSVal) : JSVal := if isNullish a then b else a

/-- An optional string (`stepCachePath?: string`) as a JavaScript value. -/
def optionStrToJSVal : Option String → JSVal
  | none => JSVal.undef
  | some s => JSVal.vstr s

/-- Embeds the body of `hasCachePath`:
`!!stepStartStates[stepId].stepCachePath ?? false` (the `!!` binds tighter
than `??`). -/
def hasCachePathJS (scp : Option String) : JSVal :=
  nullishCoalesce (bangBang (optionStrToJSVal scp)) (JSVal.vbool false)

/-- The truthiness reading of `hasCachePath`:
`!!stepStartStates[stepId].stepCachePath`. -/
def hasCachePathTruthy (scp : Option String) : JSVal :=
  bangBang (optionStrToJSVal scp)

/-- The scheduler's boolean use of `hasCachePath(stepId)`. -/
def hasCachePath (startStates : String → StartState) (stepId : String) : Bool :=
  jsTruthy (hasCachePathJS (startStates stepId).stepCachePath)

/-- Embeds `isStepEnabled`: `stepStartStates[stepId].disabled === false`. -/
def isStepEnabled (startStates : String → StartState) (stepId : String) : Bool :=
  (startStates stepId).disabled == false

/-- Lookup in a JavaScript `Map` modelled as an association list. -/
def mapLookup (m : List (String × α)) (k : String) : Option α :=
  (m.find? (fun p => p.1 == k)).map (fun p => p.2)

/-- `Map.prototype.set`: replaces the value at an existing key in place
(preserving insertion order), appending the entry otherwise. -/
def mapSet : List (String × α) → String → α → List (String × α)
  | [], k, v => [(k, v)]
  | p :: rest, k, v => if p.1 == k then (k, v) :: rest else p :: mapSet rest k v

/-- The ids of all steps (the nodes of the dependency graph). -/
def stepIds (steps : List StepDef) : List String := steps.map (fun s => s.id)

/-- Direct dependencies of a node (the `dependsOn` edges added by
`buildStepDependencyGraph`). -/
def directDeps (steps : List StepDef) (id : String) : List String :=
  match steps.find? (fun s => s.id == id) with
  | some s => s.dependsOn
  | none => []

/-- Bounded reachability along dependency edges: `reaches steps n a b` holds
when `b` is reachable from `a` by following at most `n` `dependsOn` edges. -/
def reaches (steps : List StepDef) : Nat → String → String → Bool
  | 0, _, _ => false
  | Nat.succ n, a, b =>
    (directDeps steps a).any (fun d => d == b || reaches steps n d b)

/-- Embeds `DepGraph.dependenciesOf`: the transitive dependencies of a node.
In a DAG over `steps` every dependency path is simple, so `steps.length`
edges of fuel are exact. -/
def dependsOnTrans (steps : List StepDef) (a b : String) : Bool :=
  reaches steps steps.length a b

/-- One round of leaf collection: the nodes of `remaining` whose dependencies
have all been removed (i.e. the current leaves of the working graph). -/
def topoRound (steps : List StepDef) (remaining : List String) : List String :=
  remaining.filter (fun id => (directDeps steps id).all (fun d => !remaining.contains d))

/-- Fueled Kahn enumeration realizing `DepGraph.overallOrder`: repeatedly peel
the current leaves. -/
def topoAux (steps : List StepDef) : Nat → List String → List String
  | 0, _ => []
  | Nat.succ n, remaining =>
    let ls := topoRound steps remaining
    if ls.isEmpty then []
    else ls ++ topoAux steps n (remaining.filter (fun id => !ls.contains id))

/-- The topological enumeration of the dependency graph
(`inputGraph.overallOrder()`). -/
def topoOrder (steps : List StepDef) : List String :=
  topoAux steps (stepIds steps).length (stepIds steps)

/-- Whether a step has a disabled transitive dependency, as computed while
seeding the result map: `dependencyGraph.dependenciesOf(step.id).filter(id =>
stepStartStates[id].disabled).length > 0`. -/
def hasDisabledDependencies (steps : List StepDef) (startStates : String → StartState)
    (id : String) : Bool :=
  (stepIds steps).any (fun d => dependsOnTrans steps id d && (startStates d).disabled)

/-- Whether a step is seeded `DISABLED`: it is disabled itself or has a
disabled transitive dependency. -/
def seededDisabled (steps : List StepDef) (startStates : String → StartState)
    (id : String) : Bool :=
  (startStates id).disabled || hasDisabledDependencies steps startStates id

/-- Embeds `buildStepResultsMap`: seeds, in topological enumeration order, one
result per step with status `DISABLED` or `PENDING_EVALUATION`. -/
def buildStepResultsMap (steps : List StepDef) (startStates : String → StartState) :
    List (String × IntegrationStepResult) :=
  (topoOrder steps).map (fun id =>
    let step := (steps.find? (fun s => s.id == id)).getD default
    (id,
      { id := id
        name := step.name
        dependsOn := step.dependsOn
        declaredTypes := (getDeclaredTypesInStep step).1
        partTypes := (getDeclaredTypesInStep step).2
        encounteredTypes := []
        status :=
          if seededDisabled steps startStates id then StepResultStatus.DISABLED
          else StepResultStatus.PENDING_EVALUATION }))

/-- Embeds `updateStepResultStatus`: overwrite status and encountered types of
an existing result. -/
def updateStepResultStatus (m : List (String × IntegrationStepResult)) (stepId : String)
    (status : StepResultStatus) (encountered : List String) :
    List (String × IntegrationStepResult) :=
  match mapLookup m stepId with
  | some existingResult =>
      mapSet m stepId
        { existingResult with status := status, encounteredTypes := encountered }
  | none => m

/-- Embeds `stepHasDependencyFailure`: some transitive dependency's result has
status `FAILURE` or `PARTIAL_SUCCESS_DUE_TO_DEPENDENCY_FAILURE`. -/
def stepHasDependencyFailure (steps : List StepDef)
    (results : List (String × IntegrationStepResult)) (id : String) : Bool :=
  (stepIds steps).any (fun d =>
    dependsOnTrans steps id d &&
      match mapLookup results d with
      | some r =>
          r.status == StepResultStatus.FAILURE ||
            r.status == StepResultStatus.PARTIAL_SUCCESS_DUE_TO_DEPENDENCY_FAILURE
      | none => false)

/-- Embeds `stepDependenciesAreComplete`: no transitive dependency's result is
still `PENDING_EVALUATION`. -/
def stepDependenciesAreComplete (steps : List StepDef)
    (results : List (String × IntegrationStepResult)) (id : String) : Bool :=
  (stepIds steps).all (fun d =>
    !dependsOnTrans steps id d ||
      match mapLookup results d with
      | some r => !(r.status == StepResultStatus.PENDING_EVALUATION)
      | none => true)

/-- Embeds `maybeLogUndeclaredTypes`'s filter: encountered types that are not
declared by the step. -/
def undeclaredTypes (step : StepDef) (encountered : List String) : List String :=
  encountered.filter (fun t => !(getDeclaredTypesInStep step).1.contains t)

/-- Outcome oracle for `loadCacheForStep`: it loaded at least one batch
(returning `CACHED`), found nothing (returning its initial `FAILURE` and
falling through to the handler), or its iteration threw. -/
inductive CacheLoadOutcome where
  | loaded
  | empty
  | errNonFatal
  | errFatal
deriving DecidableEq, Inhabited

/-- Outcome oracle for `step.executionHandler(context)`. -/
inductive HandlerOutcome where
  | ok
  | errNonFatal
  | errFatal
deriving DecidableEq, Inhabited

/-- The environment's behaviour for one step: handler / cache-loader outcomes,
the `_type`s the type tracker records for the step, and the outcomes of
`jobState.flush()` and `jobState.waitUntilUploadsComplete()`. -/
structure StepBehavior where
  cacheOutcome : CacheLoadOutcome
  handlerOutcome : HandlerOutcome
  encounteredTypes : List String
  flushThrows : Bool
  hasWaitUploads : Bool
  waitUploadsThrows : Bool
deriving DecidableEq, Inhabited

/-- Errors that escape `executeStep` and reach `handleUnexpectedError`
(pausing the queue and rejecting the run): a rethrown fatal step error, or an
uncaught `jobState.flush()` error. -/
inductive RunError where
  | fatalStepError (stepId : String)
  | flushError (stepId : String)
deriving DecidableEq, Inhabited

/-- The outcome of one `executeStep` call. -/
structure ExecOutcome where
  fatalErr : Option RunError
  status : StepResultStatus
  warned : Bool
  cacheRan : Bool
  handlerRan : Bool
deriving DecidableEq, Inhabited

/-- The tail of `executeStep` (lines 343-357): `await context.jobState.flush()`
is not guarded by any try/catch, so a flush error escapes; a
`waitUntilUploadsComplete` error is caught and downgrades the status to
`FAILURE`. -/
def flushAndUploadsPhase (b : StepBehavior) (stepId : String) (status : StepResultStatus)
    (warned cacheRan handlerRan : Bool) : ExecOutcome :=
  if b.flushThrows then
    { fatalErr := some (RunError.flushError stepId), status := status, warned := warned
      cacheRan := cacheRan, handlerRan := handlerRan }
  else if b.hasWaitUploads && b.waitUploadsThrows then
    { fatalErr := none, status := StepResultStatus.FAILURE, warned := warned
      cacheRan := cacheRan, handlerRan := handlerRan }
  else
    { fatalErr := none, status := status, warned := warned
      cacheRan := cacheRan, handlerRan := handlerRan }

/-- The handler section of `executeStep` (lines 306-341): run the execution
handler; on success derive `PARTIAL_SUCCESS_DUE_TO_DEPENDENCY_FAILURE` or
`SUCCESS` (warning about undeclared types in the latter case); a non-fatal
error is caught as `FAILURE`; a fatal error is rethrown before the flush. -/
def handlerPhase (steps : List StepDef) (behavior : String → StepBehavior)
    (results : List (String × IntegrationStepResult)) (step : StepDef)
    (cacheRan : Bool) : ExecOutcome :=
  let b := behavior step.id
  match b.handlerOutcome with
  | HandlerOutcome.errFatal =>
      { fatalErr := some (RunError.fatalStepError step.id)
        status := StepResultStatus.FAILURE, warned := false
        cacheRan := cacheRan, handlerRan := true }
  | HandlerOutcome.errNonFatal =>
      flushAndUploadsPhase b step.id StepResultStatus.FAILURE false cacheRan true
  | HandlerOutcome.ok =>
      if stepHasDependencyFailure steps results step.id then
        flushAndUploadsPhase b step.id
          StepResultStatus.PARTIAL_SUCCESS_DUE_TO_DEPENDENCY_FAILURE false cacheRan true
      else
        flushAndUploadsPhase b step.id StepResultStatus.SUCCESS
          (!(undeclaredTypes step b.encounteredTypes).isEmpty) cacheRan true

/-- Embeds `executeStep` (lines 270-359) for one scheduled step: the optional
cache-load phase, the handler phase, flush, and upload-wait. -/
def runExecuteStep (steps : List StepDef) (startStates : String → StartState)
    (behavior : String → StepBehavior) (results : List (String × IntegrationStepResult))
    (step : StepDef) : ExecOutcome :=
  let b := behavior step.id
  if hasCachePath startStates step.id then
    match b.cacheOutcome with
    | CacheLoadOutcome.errFatal =>
        { fatalErr := some (RunError.fatalStepError step.id)
          status := StepResultStatus.FAILURE, warned := false
          cacheRan := true, handlerRan := false }
    | CacheLoadOutcome.errNonFatal =>
        flushAndUploadsPhase b step.id StepResultStatus.FAILURE false true false
    | CacheLoadOutcome.loaded =>
        flushAndUploadsPhase b step.id StepResultStatus.CACHED false true false
    | CacheLoadOutcome.empty =>
        handlerPhase steps behavior results step true
  else handlerPhase steps behavior results step false

/-- The scheduler's mutable state: the result map, the nodes still in the
working graph, the dispatch/invocation logs, warnings emitted, and the
rejection slot filled by `handleUnexpectedError`. -/
structure SchedState where
  results : List (String × IntegrationStepResult)
  remaining : List String
  dispatched : List String
  cacheLoads : List String
  executedHandlers : List String
  warnings : List (String × List String)
  rejected : Option RunError
deriving DecidableEq, Inhabited

/-- Dispatch and atomically execute one step: remove it from the working
graph, run `executeStep`, record the outcome.  On an unexpected (fatal) error
the promise rejects and the result map is left untouched (the throw happens
before `updateStepResultStatus`). -/
def schedStep (steps : List StepDef) (startStates : String → StartState)
    (behavior : String → StepBehavior) (st : SchedState) (step : StepDef) : SchedState :=
  let out := runExecuteStep steps startStates behavior st.results step
  let b := behavior step.id
  { results :=
      match out.fatalErr with
      | some _ => st.results
      | none => updateStepResultStatus st.results step.id out.status b.encounteredTypes
    remaining := st.remaining.erase step.id
    dispatched := st.dispatched ++ [step.id]
    cacheLoads := st.cacheLoads ++ (if out.cacheRan then [step.id] else [])
    executedHandlers := st.executedHandlers ++ (if out.handlerRan then [step.id] else [])
    warnings :=
      st.warnings ++
        (if out.warned then [(step.id, undeclaredTypes step (b.encounteredTypes))] else [])
    rejected := out.fatalErr }

/-- Embeds the eligibility test of `enqueueLeafSteps`: current working-graph
leaves that are enabled and whose transitive dependencies are complete. -/
def dispatchList (steps : List StepDef) (startStates : String → StartState)
    (st : SchedState) : List String :=
  st.remaining.filter (fun id =>
    (directDeps steps id).all (fun d => !st.remaining.contains d) &&
      isStepEnabled startStates id &&
      stepDependenciesAreComplete steps st.results id)

/-- The serialized scheduler: while the queue is not paused and some step is
dispatchable, the schedule oracle picks one and it runs to completion. -/
def runSched (steps : List StepDef) (startStates : String → StartState)
    (behavior : String → StepBehavior) (sched : Nat → Nat) :
    Nat → SchedState → SchedState
  | 0, st => st
  | Nat.succ n, st =>
    if st.rejected.isSome then st
    else
      let ds := dispatchList steps startStates st
      if ds.isEmpty then st
      else
        let id := ds.getD (sched n % ds.length) ""
        match steps.find? (fun s => s.id == id) with
        | some step =>
            runSched steps startStates behavior sched n
              (schedStep steps startStates behavior st step)
        | none => st

/-- The scheduler's initial state: seeded results, the full working graph. -/
def initState (steps : List StepDef) (startStates : String → StartState) : SchedState :=
  { results := buildStepResultsMap steps startStates
    remaining := stepIds steps
    dispatched := []
    cacheLoads := []
    executedHandlers := []
    warnings := []
    rejected := none }

/-- The state in which the run settles. -/
def finalState (steps : List StepDef) (startStates : String → StartState)
    (behavior : String → StepBehavior) (sched : Nat → Nat) : SchedState :=
  runSched steps startStates behavior sched steps.length (initState steps startStates)

/-- Embeds `executeStepDependencyGraph`: the promise resolves with the values
of the result map, or rejects with the error passed to
`handleUnexpectedError`. -/
def executeStepDependencyGraph (steps : List StepDef) (startStates : String → StartState)
    (behavior : String → StepBehavior) (sched : Nat → Nat) :
    Except RunError (List IntegrationStepResult) :=
  let st := finalState steps startStates behavior sched
  match st.rejected with
  | some e => Except.error e
  | none => Except.ok (st.results.map (fun p => p.2))

/-- Well-formedness of the step catalog: distinct ids, and every `dependsOn`
names an existing step (`DepGraph.addDependency` throws otherwise, before any
execution). -/
def DepsWellFormed (steps : List StepDef) : Prop :=
  (stepIds steps).Nodup ∧ ∀ s ∈ steps, ∀ d ∈ s.dependsOn, d ∈ stepIds steps

instance (steps : List StepDef) : Decidable (DepsWellFormed steps) := by
  unfold DepsWellFormed
  infer_instance

/-- A topological ranking witnessing acyclicity of the dependency graph
(`inputGraph.overallOrder()` throws on a cycle, before any execution): every
edge strictly decreases the rank, and ranks are bounded by the number of
steps. -/
def IsTopoRank (steps : List StepDef) (rank : String → Nat) : Prop :=
  (∀ s ∈ steps, ∀ d ∈ s.dependsOn, rank d < rank s.id) ∧
    ∀ id, rank id ≤ steps.length

/-- No step behaviour produces an error that escapes `executeStep`: no fatal
handler or cache-loader error, and no `jobState.flush()` error. -/
def NoFatalBehaviors (behavior : String → StepBehavior) : Prop :=
  ∀ id, (behavior id).handlerOutcome ≠ HandlerOutcome.errFatal ∧
    (behavior id).cacheOutcome ≠ CacheLoadOutcome.errFatal ∧
    (behavior id).flushThrows = false

/-- JSON values, for the payload-size model of the synchronization module. -/
inductive JValue where
  | jnull
  | jbool (b : Bool)
  | jnum (n : Int)
  | jstr (s : String)
  | jarr (xs : List JValue)
  | jobj (fields : List (String × JValue))
deriving Inhabited

mutual

/-- Byte length of `JSON.stringify` of a value
(`Buffer.byteLength(JSON.stringify(x))`), assuming strings need no JSON
escaping.  Number literals serialize as their decimal representation. -/
def jsonSize : JValue → Nat
  | .jnull => 4
  | .jbool true => 4
  | .jbool false => 5
  | .jnum n => (toString n).length
  | .jstr s => 2 + s.utf8ByteSize
  | .jarr xs => if xs.isEmpty then 2 else 1 + jsonSizeList xs
  | .jobj fs => if fs.isEmpty then 2 else 1 + jsonSizeFields fs

/-- Total size of array elements, one separator (comma or the closing
bracket) charged per element. -/
def jsonSizeList : List JValue → Nat
  | [] => 0
  | v :: rest => jsonSize v + 1 + jsonSizeList rest

/-- Total size of object fields: two quotes, a colon and a separator per
field, plus key and value bytes. -/
def jsonSizeFields : List (String × JValue) → Nat
  | [] => 0
  | p :: rest => 4 + p.1.utf8ByteSize + jsonSize p.2 + jsonSizeFields rest

end

/-- JavaScript truthiness of a JSON value (`data[item] ? ... : 0`). -/
def jsTruthyJson : JValue → Bool
  | .jnull => false
  | .jbool b => b
  | .jnum n => !(n == 0)
  | .jstr s => !s.isEmpty
  | .jarr _ => true
  | .jobj _ => true

/-- An `EntityRawData` entry: `{ name, rawData }`, the `rawData` map given in
property insertion order. -/
structure RawDataEntry where
  name : String
  rawData : List (String × JValue)
deriving Inhabited

/-- An entity as the shrink algorithm sees it: its ordinary properties and the
optional `_rawData` array (field named `rawDataEntries` here; `none` renders
an absent or nullish `_rawData`). -/
structure SEntity where
  props : List (String × JValue)
  rawDataEntries : Option (List RawDataEntry)
deriving Inhabited

/-- The literal replacement string written by the shrink step. -/
def truncatedString : String := "TRUNCATED"

/-- Key of the `_rawData` property in serialized entities. -/
def rawDataFieldName : String := "_rawData"

/-- Key of the `name` property in serialized raw data entries. -/
def entryNameFieldName : String := "name"

/-- Key of the `rawData` property in serialized raw data entries. -/
def entryRawDataFieldName : String := "rawData"

/-- The initial `key` of `getLargestItemKeyAndByteSize`'s accumulator. -/
def emptyKey : String := ""

/-- JSON serialization of an `EntityRawData` entry. -/
def entryToJValue (e : RawDataEntry) : JValue :=
  JValue.jobj [(entryNameFieldName, JValue.jstr e.name),
    (entryRawDataFieldName, JValue.jobj e.rawData)]

/-- JSON serialization of an entity. -/
def entityToJValue (e : SEntity) : JValue :=
  JValue.jobj (e.props ++
    match e.rawDataEntries with
    | some entries => [(rawDataFieldName, JValue.jarr (entries.map entryToJValue))]
    | none => [])

/-- Serialized byte size of an entity (`Buffer.byteLength(JSON.stringify(item))`). -/
def entitySize (e : SEntity) : Nat := jsonSize (entityToJValue e)

/-- Serialized byte size of a raw data entry. -/
def entrySize (e : RawDataEntry) : Nat := jsonSize (entryToJValue e)

/-- Serialized byte size of a whole batch. -/
def batchSize (data : List SEntity) : Nat :=
  jsonSize (JValue.jarr (data.map entityToJValue))

/-- The fold shared by `getLargestEntityFromBatch` and
`getLargestRawDataEntryFromEntity`: sweeps sizes left to right keeping the
first index whose size strictly exceeds the best so far, starting from best
size `0` and no index (`largestItem` starts `undefined`). -/
def getLargestIdxAux : List Nat → Nat → Option Nat → Nat → Option Nat
  | [], _, best, _ => best
  | s :: rest, i, best, bs =>
    if bs < s then getLargestIdxAux rest (i + 1) (some i) s
    else getLargestIdxAux rest (i + 1) best bs

/-- Index of the fold winner over a list of sizes. -/
def getLargestIdx (sizes : List Nat) : Option Nat := getLargestIdxAux sizes 0 none 0

/-- Embeds `getLargestEntityFromBatch`, returning the index of the chosen
entity in the (alias-free) batch; `none` renders `undefined`. -/
def getLargestEntityFromBatch (data : List SEntity) : Option Nat :=
  getLargestIdx (data.map entitySize)

/-- Embeds `getLargestRawDataEntryFromEntity`, returning the index of the
chosen entry; `none` renders `undefined`. -/
def getLargestRawDataEntryFromEntity (entries : List RawDataEntry) : Option Nat :=
  getLargestIdx (entries.map entrySize)

/-- The size `getLargestItemKeyAndByteSize` charges to a property: the
serialized size of a truthy value, `0` otherwise. -/
def countedSize (v : JValue) : Nat := if jsTruthyJson v then jsonSize v else 0

/-- The `for (const item in data)` fold of `getLargestItemKeyAndByteSize`. -/
def largestItemAux : List (String × JValue) → String × Nat → String × Nat
  | [], best => best
  | p :: rest, best =>
    if best.2 < countedSize p.2 then largestItemAux rest (p.1, countedSize p.2)
    else largestItemAux rest best

/-- Embeds `getLargestItemKeyAndByteSize`: the key of the largest (truthy)
property of a `rawData` map and its serialized size, starting from
`{ key: the empty string, size: 0 }`. -/
def getLargestItemKeyAndByteSize (data : List (String × JValue)) : String × Nat :=
  largestItemAux data (emptyKey, 0)

/-- Result record of `shrinkRawData` (`totalTime`, a wall-clock measurement,
is not modelled).  Sizes are signed as in JavaScript arithmetic. -/
structure ShrinkRawDataResults where
  initialSize : Int
  totalSize : Int
  itemsRemoved : Nat
deriving DecidableEq, Inhabited

/-- The two ways the shrink loop can throw: the `INTEGRATION_UPLOAD_FAILED`
raise when the largest entity has no usable `_rawData`, and the TypeError
reading `.rawData` of `undefined` when `_rawData` is an empty array. -/
inductive ShrinkError where
  | cannotShrink
  | missingRawDataEntry
deriving DecidableEq, Inhabited

/-- One iteration of the `while` body of `shrinkRawData` (lines 543-573):
locate the largest entity, its largest `_rawData` entry and that entry's
largest property, overwrite the property with the literal `TRUNCATED` string,
and report the size charged to the removed property. -/
def shrinkIteration (data : List SEntity) : Except ShrinkError (List SEntity × Nat) :=
  match getLargestEntityFromBatch data with
  | none => Except.error ShrinkError.cannotShrink
  | some ei =>
    let largestEntity := data.getD ei default
    match largestEntity.rawDataEntries with
    | none => Except.error ShrinkError.cannotShrink
    | some entries =>
      match getLargestRawDataEntryFromEntity entries with
      | none => Except.error ShrinkError.missingRawDataEntry
      | some ri =>
        let entry := entries.getD ri default
        let kv := getLargestItemKeyAndByteSize entry.rawData
        let entries2 := entries.set ri
          { entry with rawData := mapSet entry.rawData kv.1 (JValue.jstr truncatedString) }
        Except.ok (data.set ei { largestEntity with rawDataEntries := some entries2 }, kv.2)

/-- `Buffer.byteLength("'TRUNCATED'")`: the source measures the single-quoted
11-character literal, which happens to equal the serialized size of the
replacement string. -/
def sizeOfTruncated : Nat := 11

/-- `UPLOAD_SIZE_MAX = 6291456 - 16384` (6 MB minus header reserve). -/
def UPLOAD_SIZE_MAX : Int := 6275072

/-- `UPLOAD_BATCH_SIZE`. -/
def UPLOAD_BATCH_SIZE : Nat := 250

/-- `UPLOAD_CONCURRENCY`. -/
def UPLOAD_CONCURRENCY : Nat := 6

/-- The fueled `while (totalSize > maxSize)` loop of `shrinkRawData`.
`totalSize` is tracked incrementally as in the source
(`totalSize - largestItemLookup.size + sizeOfTruncated`); `none` renders a
non-terminating loop (the source has no fuel and simply never returns). -/
def shrinkLoop (maxSize : Int) :
    Nat → List SEntity → Int → Nat →
      Option (Except ShrinkError (ShrinkRawDataResults × List SEntity))
  | 0, _, _, _ => none
  | Nat.succ fuel, data, totalSize, itemsRemoved =>
    if maxSize < totalSize then
      match shrinkIteration data with
      | Except.error e => some (Except.error e)
      | Except.ok (data2, sz) =>
          shrinkLoop maxSize fuel data2 (totalSize - (sz : Int) + (sizeOfTruncated : Int))
            (itemsRemoved + 1)
    else
      some (Except.ok
        ({ initialSize := 0, totalSize := totalSize, itemsRemoved := itemsRemoved }, data))

/-- Embeds `shrinkRawData(data, maxSize = UPLOAD_SIZE_MAX)`: measures the
batch, runs the shrink loop, and reports sizes and the number of truncated
items together with the mutated batch. -/
def shrinkRawData (fuel : Nat) (data : List SEntity) (maxSize : Int := UPLOAD_SIZE_MAX) :
    Option (Except ShrinkError (ShrinkRawDataResults × List SEntity)) :=
  let initSize : Int := (batchSize data : Int)
  match shrinkLoop maxSize fuel data initSize 0 with
  | some (Except.ok (res, data2)) =>
      some (Except.ok ({ res with initialSize := initSize }, data2))
  | other => other

/-- The shape of an upload error as `handleUploadDataChunkError` inspects it:
`err.code`, `err.response?.status` and `err.response?.data?.error?.code`. -/
structure UploadError where
  code : Option String
  responseStatus : Option Nat
  responseErrorCode : Option String
deriving DecidableEq, Inhabited

/-- `err.code` value for payload-too-large transport errors. -/
def requestEntityTooLargeCode : String := "RequestEntityTooLargeException"

/-- The system error code signalling that the job no longer accepts uploads. -/
def jobNotAwaitingUploadsCode : String := "JOB_NOT_AWAITING_UPLOADS"

/-- Embeds `isRequestUploadTooLargeError`. -/
def isRequestUploadTooLargeError (e : UploadError) : Bool :=
  e.code == some requestEntityTooLargeCode || e.responseStatus == some 413

/-- Embeds `getSystemErrorResponseData` (restricted to the `code` field, the
only one consulted). -/
def getSystemErrorResponseData (e : UploadError) : Option String :=
  e.responseErrorCode

/-- Failures with which `uploadDataChunk`'s retry can settle: the fatal
`INTEGRATION_UPLOAD_AFTER_JOB_ENDED`, a propagated shrink throw
(`INTEGRATION_UPLOAD_FAILED` or the TypeError), or attempt exhaustion
rethrowing the last error. -/
inductive UploadChunkFailure where
  | uploadAfterJobEnded
  | cannotShrinkPayload (e : ShrinkError)
  | exhausted (e : UploadError)
deriving DecidableEq, Inhabited

/-- The `fatal` marker of an upload failure (`INTEGRATION_UPLOAD_AFTER_JOB_ENDED`
is constructed with `fatal: true`, `INTEGRATION_UPLOAD_FAILED` with
`fatal: false`). -/
def uploadFailureIsFatal : UploadChunkFailure → Bool
  | UploadChunkFailure.uploadAfterJobEnded => true
  | _ => false

/-- `maxAttempts` of `uploadDataChunk`'s retry options. -/
def uploadRetryMaxAttempts : Nat := 5

/-- `delay` (milliseconds) of `uploadDataChunk`'s retry options. -/
def uploadRetryDelayMs : Nat := 200

/-- `factor` of `uploadDataChunk`'s retry options (the literal `1.05`). -/
def uploadRetryFactor : Rat := (105 : Rat) / 100

/-- The retry loop of `uploadDataChunk` over the `@lifeomic/attempt` library:
`aRem` counts the attempts still allowed including the current one (starting
at `maxAttempts`).  `env` gives each POST attempt's outcome (`none` for
success).  After a failed attempt the error handler runs: a too-large error
shrinks the batch in place (a shrink throw aborts the retry; shrink
divergence diverges, rendered `none`); a `JOB_NOT_AWAITING_UPLOADS` body
throws the fatal wrapper; otherwise, with attempts remaining, the loop sleeps
and retries, and with none remaining the last error is rethrown.  The second
component of the result lists the batch posted by each attempt, in order. -/
def runUploadAttempts (env : Nat → Option UploadError) (shrinkFuel : Nat) :
    Nat → Nat → List SEntity →
      Option (Except UploadChunkFailure Unit × List (List SEntity))
  | 0, _, _ => some (Except.ok (), [])
  | Nat.succ aRem, attemptIdx, batch =>
    match env attemptIdx with
    | none => some (Except.ok (), [batch])
    | some err =>
      if isRequestUploadTooLargeError err then
        match shrinkRawData shrinkFuel batch with
        | none => none
        | some (Except.error e) =>
            some (Except.error (UploadChunkFailure.cannotShrinkPayload e), [batch])
        | some (Except.ok (_, batch2)) =>
          if aRem == 0 then some (Except.error (UploadChunkFailure.exhausted err), [batch])
          else
            match runUploadAttempts env shrinkFuel aRem (attemptIdx + 1) batch2 with
            | none => none
            | some (r, posts) => some (r, batch :: posts)
      else if getSystemErrorResponseData err == some jobNotAwaitingUploadsCode then
        some (Except.error UploadChunkFailure.uploadAfterJobEnded, [batch])
      else if aRem == 0 then
        some (Except.error (UploadChunkFailure.exhausted err), [batch])
      else
        match runUploadAttempts env shrinkFuel aRem (attemptIdx + 1) batch with
        | none => none
        | some (r, posts) => some (r, batch :: posts)

/-- Embeds `uploadDataChunk`: run the POST with up to `uploadRetryMaxAttempts`
attempts. -/
def uploadDataChunk (env : Nat → Option UploadError) (shrinkFuel : Nat)
    (batch : List SEntity) :
    Option (Except UploadChunkFailure Unit × List (List SEntity)) :=
  runUploadAttempts env shrinkFuel uploadRetryMaxAttempts 0 batch

/-- A `SynchronizationJob` handle. -/
structure SyncJob where
  id : String
  integrationJobId : String
  integrationInstanceId : String
deriving DecidableEq, Inhabited

/-- Outcome oracle for `synchronizeCollectedData`'s collaborators: the result
of `initiateSynchronization`, of `uploadCollectedData` (`none` meaning it
returned), of `finalizeSynchronization` (with `getPartialDatasets` folded in),
and of `abortSynchronization`. -/
structure SyncEnv where
  initiateResult : Except UploadError SyncJob
  uploadResult : Option UploadChunkFailure
  finalizeResult : Except UploadError SyncJob
  abortResult : Except UploadError SyncJob
deriving Inhabited

/-- The error `synchronizeCollectedData` settles with. -/
inductive SyncError where
  | initiateFailed (e : UploadError)
  | uploadFailed (e : UploadChunkFailure)
  | finalizeFailed (e : UploadError)
  | abortFailed (e : UploadError)
deriving DecidableEq, Inhabited

/-- The observable calls `synchronizeCollectedData` makes, in order. -/
inductive SyncCall where
  | callInitiate
  | callUpload
  | callFinalize
  | callAbort
  | awaitEventsIdle
deriving DecidableEq, Inhabited

/-- Embeds `synchronizeCollectedData` (lines 53-88): initiate; try upload then
finalize; on any error abort and re-raise (an abort failure is re-raised in
its place); the event queue is awaited in the `finally` (an initiate failure
precedes the `try`, so neither abort nor the event-queue await runs). -/
def synchronizeCollectedData (env : SyncEnv) : Except SyncError SyncJob × List SyncCall :=
  match env.initiateResult with
  | Except.error e => (Except.error (SyncError.initiateFailed e), [SyncCall.callInitiate])
  | Except.ok _ =>
    match env.uploadResult with
    | some ue =>
      match env.abortResult with
      | Except.ok _ =>
          (Except.error (SyncError.uploadFailed ue),
            [SyncCall.callInitiate, SyncCall.callUpload, SyncCall.callAbort,
              SyncCall.awaitEventsIdle])
      | Except.error ae =>
          (Except.error (SyncError.abortFailed ae),
            [SyncCall.callInitiate, SyncCall.callUpload, SyncCall.callAbort,
              SyncCall.awaitEventsIdle])
    | none =>
      match env.finalizeResult with
      | Except.ok fj =>
          (Except.ok fj,
            [SyncCall.callInitiate, SyncCall.callUpload, SyncCall.callFinalize,
              SyncCall.awaitEventsIdle])
      | Except.error fe =>
        match env.abortResult with
        | Except.ok _ =>
            (Except.error (SyncError.finalizeFailed fe),
              [SyncCall.callInitiate, SyncCall.callUpload, SyncCall.callFinalize,
                SyncCall.callAbort, SyncCall.awaitEventsIdle])
        | Except.error ae =>
            (Except.error (SyncError.abortFailed ae),
              [SyncCall.callInitiate, SyncCall.callUpload, SyncCall.callFinalize,
                SyncCall.callAbort, SyncCall.awaitEventsIdle])

/-- Well-formedness of a batch for the shrink analysis: within each raw data
entry the property keys are distinct (JavaScript objects cannot carry
duplicate keys). -/
def BatchWF (data : List SEntity) : Prop :=
  ∀ e ∈ data, ∀ en ∈ e.rawDataEntries.getD [], (en.rawData.map (fun p => p.1)).Nodup

instance (data : List SEntity) : Decidable (BatchWF data) := by
  unfold BatchWF
  infer_instance

/-- The scheduler invariant: (1) the result map keys follow the topological
enumeration; (2) each result record's `id` is its key; (3) a step seeded
`DISABLED` is never removed from the working graph and its result entry stays
as seeded; (4) dispatched steps are known steps not seeded `DISABLED`;
(5)/(6) the cache loader and execution handler are invoked only for
dispatched steps; (7)/(8) the working graph holds known steps without
duplicates; (9) while the run is not rejected, a result is
`PENDING_EVALUATION` exactly for enabled-seeded steps still in the working
graph. -/
def SchedInv (steps : List StepDef) (startStates : String → StartState)
    (st : SchedState) : Prop :=
  (st.results.map (fun p => p.1) = topoOrder steps) ∧
  (∀ p ∈ st.results, p.2.id = p.1) ∧
  (∀ id, id ∈ stepIds steps → seededDisabled steps startStates id = true →
      id ∈ st.remaining ∧
        mapLookup st.results id = mapLookup (buildStepResultsMap steps startStates) id) ∧
  (∀ id ∈ st.dispatched, id ∈ stepIds steps ∧ seededDisabled steps startStates id = false) ∧
  (∀ id ∈ st.cacheLoads, id ∈ st.dispatched) ∧
  (∀ id ∈ st.executedHandlers, id ∈ st.dispatched) ∧
  (∀ id ∈ st.remaining, id ∈ stepIds steps) ∧
  st.remaining.Nodup ∧
  (st.rejected = none →
    ∀ id ∈ stepIds steps, ∃ r, mapLookup st.results id = some r ∧
      (r.status = StepResultStatus.PENDING_EVALUATION ↔
        (seededDisabled steps startStates id = false ∧ id ∈ st.remaining)))

/-- Step id used by the concrete examples. -/
def idA : String := "A"

/-- Step id used by the concrete examples. -/
def idB : String := "B"

/-- A start-state map enabling every step with no cache path. -/
def allEnabledStart : String → StartState :=
  fun _ => { disabled := false, stepCachePath := none }

/-- A behaviour whose handler succeeds and whose job state flushes cleanly. -/
def plainOkBehavior : StepBehavior :=
  { cacheOutcome := CacheLoadOutcome.empty, handlerOutcome := HandlerOutcome.ok
    encounteredTypes := [], flushThrows := false, hasWaitUploads := false
    waitUploadsThrows := false }

/-- The single step of the flush-failure example. -/
def c1Step : StepDef :=
  { id := idA, name := idA, dependsOn := [], entities := [], relationships := []
    mappedRelationships := [] }

/-- A one-step catalog for the flush-failure example. -/
def c1Steps : List StepDef := [c1Step]

/-- Behaviour whose `jobState.flush()` throws. -/
def c1FlushBehavior : String → StepBehavior :=
  fun _ => { plainOkBehavior with flushThrows := true }

/-- Behaviour whose `waitUntilUploadsComplete()` throws. -/
def c1WaitBehavior : String → StepBehavior :=
  fun _ => { plainOkBehavior with hasWaitUploads := true, waitUploadsThrows := true }

/-- A one-step catalog for the ordering example. -/
def c2Steps : List StepDef :=
  [{ id := idA, name := idA, dependsOn := [], entities := [], relationships := []
     mappedRelationships := [] }]

/-- The results with which the ordering example resolves. -/
def c2Expected : List IntegrationStepResult :=
  [{ id := idA, name := idA, dependsOn := [], declaredTypes := [], partTypes := []
     encounteredTypes := [], status := StepResultStatus.SUCCESS }]

/-- A raw data entry holding one oversized property. -/
def w3Entry : RawDataEntry :=
  { name := "n", rawData := [("a", JValue.jstr "0123456789012345678901234567890")] }

/-- A one-entity batch for the shrink example. -/
def w3Batch : List SEntity := [{ props := [], rawDataEntries := some [w3Entry] }]

/-- The shrink example's entry after truncation. -/
def w3Entry2 : RawDataEntry :=
  { name := "n", rawData := [("a", JValue.jstr truncatedString)] }

/-- The shrink example's batch after truncation. -/
def w3Batch2 : List SEntity := [{ props := [], rawDataEntries := some [w3Entry2] }]

/-- A two-step chain (`B` depends on `A`) for the terminal-status example. -/
def c4Steps : List StepDef :=
  [{ id := idA, name := idA, dependsOn := [], entities := [], relationships := []
     mappedRelationships := [] },
   { id := idB, name := idB, dependsOn := [idA], entities := [], relationships := []
     mappedRelationships := [] }]

/-- A topological ranking of the two-step chain. -/
def c4Rank : String → Nat := fun id => if id == idB then 1 else 0

/-- A two-step chain for the disabled-barrier example. -/
def c5Steps : List StepDef :=
  [{ id := idA, name := idA, dependsOn := [], entities := [], relationships := []
     mappedRelationships := [] },
   { id := idB, name := idB, dependsOn := [idA], entities := [], relationships := []
     mappedRelationships := [] }]

/-- Start states disabling step `A` of the disabled-barrier example. -/
def c5Start : String → StartState :=
  fun id =>
    if id == idA then { disabled := true, stepCachePath := none }
    else { disabled := false, stepCachePath := none }

/-- A topological ranking of the disabled-barrier example. -/
def c5Rank : String → Nat := fun id => if id == idB then 1 else 0

/-- A declared type for the undeclared-warning example. -/
def declaredT : String := "declared_type"

/-- An encountered type the step does not declare. -/
def strayT : String := "stray_type"

/-- The dependency-failure example's step `B`, declaring one entity type and
depending on `A`. -/
def c6StepB : StepDef :=
  { id := idB, name := idB, dependsOn := [idA]
    entities := [{ typeName := declaredT, isPartialType := false }]
    relationships := [], mappedRelationships := [] }

/-- The two steps of the dependency-failure example. -/
def c6Steps : List StepDef :=
  [{ id := idA, name := idA, dependsOn := [], entities := [], relationships := []
     mappedRelationships := [] },
   c6StepB]

/-- A result map in which step `A` has already failed. -/
def c6FailedResults : List (String × IntegrationStepResult) :=
  [(idA,
    { id := idA, name := idA, dependsOn := [], declaredTypes := [], partTypes := []
      encounteredTypes := [], status := StepResultStatus.FAILURE })]

/-- A scheduler state in which `A` has failed and `B` is about to run. -/
def c6State : SchedState :=
  { results := c6FailedResults, remaining := [idB], dispatched := [idA]
    cacheLoads := [], executedHandlers := [idA], warnings := [], rejected := none }

/-- Behaviour for the dependency-failure example: the handler succeeds and
records a stray type. -/
def c6Behavior : String → StepBehavior :=
  fun _ => { plainOkBehavior with encounteredTypes := [strayT] }

/-- The cache directory of the cached-step example. -/
def c10CachePath : String := "/cache/step-b"

/-- Start states giving step `B` a cache path. -/
def c10Start : String → StartState :=
  fun id =>
    if id == idB then { disabled := false, stepCachePath := some c10CachePath }
    else { disabled := false, stepCachePath := none }

/-- Behaviour for the cached-step example: the cache loader reports data. -/
def c10Behavior : String → StepBehavior :=
  fun _ => { plainOkBehavior with cacheOutcome := CacheLoadOutcome.loaded }

/-- The two steps of the cached-step example (`B` depends on `A`). -/
def c10Steps : List StepDef :=
  [{ id := idA, name := idA, dependsOn := [], entities := [], relationships := []
     mappedRelationships := [] },
   { id := idB, name := idB, dependsOn := [idA], entities := [], relationships := []
     mappedRelationships := [] }]

/-- A result map of the cached-step example in which `A` failed. -/
def c10FailedResults : List (String × IntegrationStepResult) :=
  [(idA,
    { id := idA, name := idA, dependsOn := [], declaredTypes := [], partTypes := []
      encounteredTypes := [], status := StepResultStatus.FAILURE })]

/-- A scheduler state of the cached-step example. -/
def c10State : SchedState :=
  { results := c10FailedResults, remaining := [idB], dispatched := [idA]
    cacheLoads := [], executedHandlers := [idA], warnings := [], rejected := none }

/-- An upload error carrying both HTTP status 413 and a
`JOB_NOT_AWAITING_UPLOADS` body. -/
def x7Err : UploadError :=
  { code := none, responseStatus := some 413
    responseErrorCode := some jobNotAwaitingUploadsCode }

/-- An environment failing every attempt with `x7Err`. -/
def x7Env : Nat → Option UploadError := fun _ => some x7Err

/-- An upload error carrying a `JOB_NOT_AWAITING_UPLOADS` body and nothing
else. -/
def w7Err : UploadError :=
  { code := none, responseStatus := none
    responseErrorCode := some jobNotAwaitingUploadsCode }

/-- An environment failing every attempt with `w7Err`. -/
def w7Env : Nat → Option UploadError := fun _ => some w7Err

/-- A synchronization job handle for the abort example. -/
def w7Job : SyncJob := { id := "j", integrationJobId := "ij", integrationInstanceId := "ii" }

/-- A synchronization environment whose upload fails fatally and whose abort
succeeds. -/
def w7SyncEnv : SyncEnv :=
  { initiateResult := Except.ok w7Job
    uploadResult := some UploadChunkFailure.uploadAfterJobEnded
    finalizeResult := Except.ok w7Job, abortResult := Except.ok w7Job }

/-- An upload error carrying the `RequestEntityTooLargeException` code. -/
def w8Err : UploadError :=
  { code := some requestEntityTooLargeCode, responseStatus := none
    responseErrorCode := none }

/-- An environment whose first attempt is too large and whose second attempt
succeeds. -/
def w8Env : Nat → Option UploadError := fun i => if i == 0 then some w8Err else none

/-- Analysis helper: the maximum of a list of sizes (`0` for the empty
list). -/
def listMax (l : List Nat) : Nat := l.foldr max 0

/-- Analysis helper describing the strict-improvement folds of the shrink
module: relative to an incoming best size, the index of the element the fold
settles on (the first occurrence of the maximum, provided it beats the
incoming best). -/
def firstExceedMax : List Nat → Nat → Option Nat
  | [], _ => none
  | s :: rest, bs =>
    if bs < s then
      match firstExceedMax rest s with
      | some j => some (j + 1)
      | none => some 0
    else
      match firstExceedMax rest bs with
      | some j => some (j + 1)
      | none => none

/-- C9: `hasCachePath(stepId)`, written
`!!stepStartStates[stepId].stepCachePath ?? false`, equals the plain
truthiness check `!!stepStartStates[stepId].stepCachePath` on every start
state: `!!` always produces a boolean, booleans are never nullish, so the
`?? false` fallback is unreachable. -/
theorem hasCachePath_coalesce_equals_truthiness :
    (∀ scp : Option String, hasCachePathJS scp = hasCachePathTruthy scp) ∧
      ∀ v : JSVal, isNullish (bangBang v) = false :=
  ⟨fun _ => rfl, fun _ => rfl⟩

theorem mapLookup_mem {α : Type} {m : List (String × α)} {k : String} {v : α}
    (h : mapLookup m k = some v) : (k, v) ∈ m := by
  induction m with
  | nil => simp [mapLookup] at h
  | cons p rest ih =>
    by_cases hk : (p.1 == k) = true
    · simp only [mapLookup, List.find?_cons, hk, cond_true, Option.map_some] at h
      have h1 : p.1 = k := beq_iff_eq.mp hk
      have h2 : p.2 = v := by injection h
      have hp : p = (k, v) := by
        cases p
        simp_all
      rw [← hp]
      exact List.mem_cons_self _ _
    · have h2 : mapLookup rest k = some v := by
        simpa only [mapLookup, List.find?_cons, hk, cond_false] using h
      exact List.mem_cons_of_mem _ (ih h2)

theorem mapSet_keys_of_lookup {α : Type} {m : List (String × α)} {k : String} {w : α}
    (hm : mapLookup m k = some w) (v : α) :
    (mapSet m k v).map (fun p => p.1) = m.map (fun p => p.1) := by
  induction m with
  | nil => simp [mapLookup] at hm
  | cons p rest ih =>
    by_cases hk : (p.1 == k) = true
    · simp [mapSet, hk, beq_iff_eq.mp hk]
    · have h2 : mapLookup rest k = some w := by
        simpa only [mapLookup, List.find?_cons, hk, cond_false] using hm
      simp [mapSet, hk, ih h2]

theorem mem_mapSet {α : Type} {m : List (String × α)} {k : String} {v : α} {p : String × α}
    (h : p ∈ mapSet m k v) : p ∈ m ∨ p = (k, v) := by
  induction m with
  | nil =>
    right
    simpa [mapSet] using h
  | cons q rest ih =>
    by_cases hk : (q.1 == k) = true
    · simp only [mapSet, hk, if_pos] at h
      rcases List.mem_cons.mp h with h2 | h2
      · right; exact h2
      · left; exact List.mem_cons_of_mem _ h2
    · simp only [mapSet, hk, if_neg, Bool.not_eq_true] at h
      rcases List.mem_cons.mp h with h2 | h2
      · left; exact h2 ▸ List.mem_cons_self _ _
      · rcases ih h2 with h3 | h3
        · left; exact List.mem_cons_of_mem _ h3
        · right; exact h3

theorem mapLookup_mapSet_self {α : Type} (m : List (String × α)) (k : String) (v : α) :
    mapLookup (mapSet m k v) k = some v := by
  induction m with
  | nil => simp [mapSet, mapLookup]
  | cons p rest ih =>
    by_cases hk : (p.1 == k) = true
    · simp [mapSet, hk, mapLookup, List.find?_cons]
    · simpa [mapSet, hk, mapLookup, List.find?_cons] using ih

theorem mapLookup_mapSet_ne {α : Type} (m : List (String × α)) (k : String) (v : α)
    {k2 : String} (h : (k2 == k) = false) :
    mapLookup (mapSet m k v) k2 = mapLookup m k2 := by
  have hks : (k == k2) = false := by
    rcases Bool.eq_false_iff.mp h with h2
    exact beq_eq_false_iff_ne.mpr (fun he => (beq_eq_false_iff_ne.mp h) he.symm)
  induction m with
  | nil => simp [mapSet, mapLookup, List.find?_cons, hks]
  | cons p rest ih =>
    by_cases hk : (p.1 == k) = true
    · have hp2 : (p.1 == k2) = false := by
        rw [beq_iff_eq.mp hk]; exact hks
      simp [mapSet, hk, mapLookup, List.find?_cons, hks, hp2]
    · by_cases hp2 : (p.1 == k2) = true
      · simp [mapSet, hk, mapLookup, List.find?_cons, hp2]
      · simp only [Bool.not_eq_true] at hp2
        simpa [mapSet, hk, mapLookup, List.find?_cons, hp2] using ih

theorem updateStepResultStatus_keys (m : List (String × IntegrationStepResult))
    (stepId : String) (status : StepResultStatus) (enc : List String) :
    (updateStepResultStatus m stepId status enc).map (fun p => p.1)
      = m.map (fun p => p.1) := by
  unfold updateStepResultStatus
  cases hm : mapLookup m stepId with
  | none => rfl
  | some r => exact mapSet_keys_of_lookup hm _

theorem updateStepResultStatus_snd_id (m : List (String × IntegrationStepResult))
    (stepId : String) (status : StepResultStatus) (enc : List String)
    (h : ∀ p ∈ m, p.2.id = p.1) :
    ∀ p ∈ updateStepResultStatus m stepId status enc, p.2.id = p.1 := by
  unfold updateStepResultStatus
  cases hm : mapLookup m stepId with
  | none => exact h
  | some r =>
    intro p hp
    rcases mem_mapSet hp with hp2 | hp2
    · exact h p hp2
    · have hr : r.id = stepId := h (stepId, r) (mapLookup_mem hm)
      rw [hp2]
      simpa using hr

theorem schedStep_results (steps : List StepDef) (startStates : String → StartState)
    (behavior : String → StepBehavior) (st : SchedState) (step : StepDef) :
    (schedStep steps startStates behavior st step).results =
      match (runExecuteStep steps startStates behavior st.results step).fatalErr with
      | some _ => st.results
      | none =>
          updateStepResultStatus st.results step.id
            (runExecuteStep steps startStates behavior st.results step).status
            (behavior step.id).encounteredTypes := rfl

theorem schedStep_results_shape (steps : List StepDef) (startStates : String → StartState)
    (behavior : String → StepBehavior) (st : SchedState) (step : StepDef)
    (h1 : st.results.map (fun p => p.1) = topoOrder steps)
    (h2 : ∀ p ∈ st.results, p.2.id = p.1) :
    ((schedStep steps startStates behavior st step).results.map (fun p => p.1)
        = topoOrder steps ∧
      ∀ p ∈ (schedStep steps startStates behavior st step).results, p.2.id = p.1) := by
  have heq := schedStep_results steps startStates behavior st step
  cases hfe : (runExecuteStep steps startStates behavior st.results step).fatalErr with
  | some e =>
    rw [hfe] at heq
    exact ⟨heq ▸ h1, heq ▸ h2⟩
  | none =>
    rw [hfe] at heq
    refine ⟨?_, ?_⟩
    · rw [heq, updateStepResultStatus_keys]
      exact h1
    · rw [heq]
      exact updateStepResultStatus_snd_id _ _ _ _ h2

theorem runSched_succ (steps : List StepDef) (startStates : String → StartState)
    (behavior : String → StepBehavior) (sched : Nat → Nat) (n : Nat) (st : SchedState) :
    runSched steps startStates behavior sched (Nat.succ n) st =
      if st.rejected.isSome then st
      else
        if (dispatchList steps startStates st).isEmpty then st
        else
          match steps.find? (fun s => s.id ==
              (dispatchList steps startStates st).getD
                (sched n % (dispatchList steps startStates st).length) "") with
          | some step =>
              runSched steps startStates behavior sched n
                (schedStep steps startStates behavior st step)
          | none => st := rfl

theorem runSched_results_shape (steps : List StepDef) (startStates : String → StartState)
    (behavior : String → StepBehavior) (sched : Nat → Nat) :
    ∀ (fuel : Nat) (st : SchedState),
      st.results.map (fun p => p.1) = topoOrder steps →
      (∀ p ∈ st.results, p.2.id = p.1) →
      ((runSched steps startStates behavior sched fuel st).results.map (fun p => p.1)
          = topoOrder steps ∧
        ∀ p ∈ (runSched steps startStates behavior sched fuel st).results,
          p.2.id = p.1) := by
  intro fuel
  induction fuel with
  | zero => intro st h1 h2; exact ⟨h1, h2⟩
  | succ n ih =>
    intro st h1 h2
    rw [runSched_succ]
    by_cases hrej : st.rejected.isSome = true
    · rw [if_pos hrej]
      exact ⟨h1, h2⟩
    · rw [if_neg hrej]
      by_cases hds : (dispatchList steps startStates st).isEmpty = true
      · rw [if_pos hds]
        exact ⟨h1, h2⟩
      · rw [if_neg hds]
        cases hfind : steps.find? (fun s => s.id ==
            (dispatchList steps startStates st).getD
              (sched n % (dispatchList steps startStates st).length) "") with
        | some step =>
          simp only [hfind]
          have hs := schedStep_results_shape steps startStates behavior st step h1 h2
          exact ih _ hs.1 hs.2
        | none =>
          simp only [hfind]
          exact ⟨h1, h2⟩

theorem buildStepResultsMap_keys (steps : List StepDef) (startStates : String → StartState) :
    (buildStepResultsMap steps startStates).map (fun p => p.1) = topoOrder steps := by
  unfold buildStepResultsMap
  rw [List.map_map]
  exact List.map_id (topoOrder steps)

theorem buildStepResultsMap_snd_id (steps : List StepDef) (startStates : String → StartState) :
    ∀ p ∈ buildStepResultsMap steps startStates, p.2.id = p.1 := by
  intro p hp
  unfold buildStepResultsMap at hp
  simp only [List.mem_map] at hp
  obtain ⟨id, _, rfl⟩ := hp
  rfl

/-- C2: whenever `executeStepDependencyGraph` resolves - for any schedule of
step completions, hence for any concurrency limit of the work queue - the
results vector lists one result per step in the topological enumeration order
of the original input graph, not in completion order. -/
theorem resolved_results_follow_topological_order (steps : List StepDef)
    (startStates : String → StartState) (behavior : String → StepBehavior)
    (sched : Nat → Nat) (rs : List IntegrationStepResult)
    (h : executeStepDependencyGraph steps startStates behavior sched = Except.ok rs) :
    rs.map (fun r => r.id) = topoOrder steps := by
  have hshape := runSched_results_shape steps startStates behavior sched steps.length
    (initState steps startStates)
    (buildStepResultsMap_keys steps startStates)
    (buildStepResultsMap_snd_id steps startStates)
  unfold executeStepDependencyGraph at h
  set st := finalState steps startStates behavior sched with hst
  cases hrej : st.rejected with
  | some e => simp [hrej] at h
  | none =>
    simp only [hrej] at h
    have hrs : rs = st.results.map (fun p => p.2) := by
      injection h with h2
      exact h2.symm
    subst hrs
    calc (st.results.map (fun p => p.2)).map (fun r => r.id)
        = st.results.map (fun p => p.2.id) := by simp
      _ = st.results.map (fun p => p.1) :=
          List.map_congr_left (fun p hp => hshape.2 p hp)
      _ = topoOrder steps := hshape.1

/-- Witness for the ordering theorem at a concrete one-step run. -/
theorem resolved_results_follow_topological_order_witness :
    executeStepDependencyGraph c2Steps allEnabledStart (fun _ => plainOkBehavior)
        (fun _ => 0) = Except.ok c2Expected ∧
      c2Expected.map (fun r => r.id) = topoOrder c2Steps :=
  ⟨by rfl,
    resolved_results_follow_topological_order c2Steps allEnabledStart
      (fun _ => plainOkBehavior) (fun _ => 0) c2Expected (by rfl)⟩

theorem schedStep_rejected (steps : List StepDef) (startStates : String → StartState)
    (behavior : String → StepBehavior) (st : SchedState) (step : StepDef) :
    (schedStep steps startStates behavior st step).rejected =
      (runExecuteStep steps startStates behavior st.results step).fatalErr := rfl

theorem schedStep_warnings (steps : List StepDef) (startStates : String → StartState)
    (behavior : String → StepBehavior) (st : SchedState) (step : StepDef) :
    (schedStep steps startStates behavior st step).warnings =
      st.warnings ++
        (if (runExecuteStep steps startStates behavior st.results step).warned then
          [(step.id, undeclaredTypes step ((behavior step.id).encounteredTypes))]
        else []) := rfl

theorem runExecuteStep_eq (steps : List StepDef) (startStates : String → StartState)
    (behavior : String → StepBehavior) (results : List (String × IntegrationStepResult))
    (step : StepDef) :
    runExecuteStep steps startStates behavior results step =
      if hasCachePath startStates step.id then
        match (behavior step.id).cacheOutcome with
        | CacheLoadOutcome.errFatal =>
            { fatalErr := some (RunError.fatalStepError step.id)
              status := StepResultStatus.FAILURE, warned := false
              cacheRan := true, handlerRan := false }
        | CacheLoadOutcome.errNonFatal =>
            flushAndUploadsPhase (behavior step.id) step.id StepResultStatus.FAILURE
              false true false
        | CacheLoadOutcome.loaded =>
            flushAndUploadsPhase (behavior step.id) step.id StepResultStatus.CACHED
              false true false
        | CacheLoadOutcome.empty => handlerPhase steps behavior results step true
      else handlerPhase steps behavior results step false := rfl

theorem handlerPhase_eq (steps : List StepDef) (behavior : String → StepBehavior)
    (results : List (String × IntegrationStepResult)) (step : StepDef) (cacheRan : Bool) :
    handlerPhase steps behavior results step cacheRan =
      match (behavior step.id).handlerOutcome with
      | HandlerOutcome.errFatal =>
          { fatalErr := some (RunError.fatalStepError step.id)
            status := StepResultStatus.FAILURE, warned := false
            cacheRan := cacheRan, handlerRan := true }
      | HandlerOutcome.errNonFatal =>
          flushAndUploadsPhase (behavior step.id) step.id StepResultStatus.FAILURE
            false cacheRan true
      | HandlerOutcome.ok =>
          if stepHasDependencyFailure steps results step.id then
            flushAndUploadsPhase (behavior step.id) step.id
              StepResultStatus.PARTIAL_SUCCESS_DUE_TO_DEPENDENCY_FAILURE false cacheRan true
          else
            flushAndUploadsPhase (behavior step.id) step.id StepResultStatus.SUCCESS
              (!(undeclaredTypes step ((behavior step.id).encounteredTypes)).isEmpty)
              cacheRan true := rfl

theorem flushAndUploadsPhase_wait_fails (b : StepBehavior) (stepId : String)
    (status : StepResultStatus) (warned cacheRan handlerRan : Bool)
    (hf : b.flushThrows = false) (hw : b.hasWaitUploads = true)
    (hwt : b.waitUploadsThrows = true) :
    flushAndUploadsPhase b stepId status warned cacheRan handlerRan =
      { fatalErr := none, status := StepResultStatus.FAILURE, warned := warned
        cacheRan := cacheRan, handlerRan := handlerRan } := by
  simp [flushAndUploadsPhase, hf, hw, hwt]

theorem flushAndUploadsPhase_flush_fails (b : StepBehavior) (stepId : String)
    (status : StepResultStatus) (warned cacheRan handlerRan : Bool)
    (hf : b.flushThrows = true) :
    flushAndUploadsPhase b stepId status warned cacheRan handlerRan =
      { fatalErr := some (RunError.flushError stepId), status := status, warned := warned
        cacheRan := cacheRan, handlerRan := handlerRan } := by
  simp [flushAndUploadsPhase, hf]

theorem flushAndUploadsPhase_clean (b : StepBehavior) (stepId : String)
    (status : StepResultStatus) (warned cacheRan handlerRan : Bool)
    (hf : b.flushThrows = false) (hwu : (b.hasWaitUploads && b.waitUploadsThrows) = false) :
    flushAndUploadsPhase b stepId status warned cacheRan handlerRan =
      { fatalErr := none, status := status, warned := warned
        cacheRan := cacheRan, handlerRan := handlerRan } := by
  simp [flushAndUploadsPhase, hf, hwu]

/-- C1 (corrected): after the handler phase, an error thrown by
`waitUntilUploadsComplete` is caught and downgrades the step's status to
`FAILURE` without rejecting the run, but an error thrown by
`jobState.flush()` is not caught anywhere in `executeStep`: it reaches
`handleUnexpectedError`, the result map is left untouched and the run
rejects with it. -/
theorem runExecuteStep_through_flush (steps : List StepDef)
    (startStates : String → StartState) (behavior : String → StepBehavior)
    (results : List (String × IntegrationStepResult)) (step : StepDef)
    (hh : (behavior step.id).handlerOutcome ≠ HandlerOutcome.errFatal)
    (hc : (behavior step.id).cacheOutcome ≠ CacheLoadOutcome.errFatal) :
    ∃ status warned cacheRan handlerRan,
      runExecuteStep steps startStates behavior results step =
        flushAndUploadsPhase (behavior step.id) step.id status warned cacheRan handlerRan := by
  rw [runExecuteStep_eq]
  by_cases hcp : hasCachePath startStates step.id = true
  · rw [if_pos hcp]
    cases hco : (behavior step.id).cacheOutcome
    · exact ⟨StepResultStatus.CACHED, false, true, false, rfl⟩
    · rw [handlerPhase_eq]
      cases hho : (behavior step.id).handlerOutcome
      · by_cases hdf : stepHasDependencyFailure steps results step.id = true
        · rw [if_pos hdf]
          exact ⟨_, _, _, _, rfl⟩
        · rw [if_neg hdf]
          exact ⟨_, _, _, _, rfl⟩
      · exact ⟨StepResultStatus.FAILURE, false, true, true, rfl⟩
      · exact absurd hho hh
    · exact ⟨StepResultStatus.FAILURE, false, true, false, rfl⟩
    · exact absurd hco hc
  · rw [if_neg hcp]
    rw [handlerPhase_eq]
    cases hho : (behavior step.id).handlerOutcome
    · by_cases hdf : stepHasDependencyFailure steps results step.id = true
      · rw [if_pos hdf]
        exact ⟨_, _, _, _, rfl⟩
      · rw [if_neg hdf]
        exact ⟨_, _, _, _, rfl⟩
    · exact ⟨StepResultStatus.FAILURE, false, false, true, rfl⟩
    · exact absurd hho hh

/-- C1 (corrected): after the handler phase, an error thrown by
`waitUntilUploadsComplete` is caught and downgrades the step's status to
`FAILURE` without rejecting the run, but an error thrown by
`jobState.flush()` is not caught anywhere in `executeStep`: it reaches
`handleUnexpectedError`, the result map is left untouched and the run
rejects with it. -/
theorem wait_failure_downgrades_flush_failure_rejects :
    (∀ (steps : List StepDef) (startStates : String → StartState)
        (behavior : String → StepBehavior) (st : SchedState) (step : StepDef),
        (behavior step.id).flushThrows = false →
        (behavior step.id).hasWaitUploads = true →
        (behavior step.id).waitUploadsThrows = true →
        (behavior step.id).handlerOutcome ≠ HandlerOutcome.errFatal →
        (behavior step.id).cacheOutcome ≠ CacheLoadOutcome.errFatal →
        ((runExecuteStep steps startStates behavior st.results step).fatalErr = none ∧
          (runExecuteStep steps startStates behavior st.results step).status
            = StepResultStatus.FAILURE ∧
          (schedStep steps startStates behavior st step).rejected = none)) ∧
    (∀ (steps : List StepDef) (startStates : String → StartState)
        (behavior : String → StepBehavior) (st : SchedState) (step : StepDef),
        (behavior step.id).flushThrows = true →
        (behavior step.id).handlerOutcome ≠ HandlerOutcome.errFatal →
        (behavior step.id).cacheOutcome ≠ CacheLoadOutcome.errFatal →
        ((runExecuteStep steps startStates behavior st.results step).fatalErr
            = some (RunError.flushError step.id) ∧
          (schedStep steps startStates behavior st step).rejected
            = some (RunError.flushError step.id) ∧
          (schedStep steps startStates behavior st step).results = st.results)) := by
  constructor
  · intro steps startStates behavior st step hf hw hwt hh hc
    obtain ⟨status, warned, cacheRan, handlerRan, heq⟩ :=
      runExecuteStep_through_flush steps startStates behavior st.results step hh hc
    rw [flushAndUploadsPhase_wait_fails _ _ _ _ _ _ hf hw hwt] at heq
    refine ⟨?_, ?_, ?_⟩
    · rw [heq]
    · rw [heq]
    · rw [schedStep_rejected, heq]
  · intro steps startStates behavior st step hf hh hc
    obtain ⟨status, warned, cacheRan, handlerRan, heq⟩ :=
      runExecuteStep_through_flush steps startStates behavior st.results step hh hc
    rw [flushAndUploadsPhase_flush_fails _ _ _ _ _ _ hf] at heq
    refine ⟨?_, ?_, ?_⟩
    · rw [heq]
    · rw [schedStep_rejected, heq]
    · rw [schedStep_results, heq]

/-- Witness for the flush/upload-wait failure theorem at a concrete one-step
configuration. -/
theorem wait_failure_downgrades_flush_failure_rejects_witness :
    ((runExecuteStep c1Steps allEnabledStart c1WaitBehavior
          (initState c1Steps allEnabledStart).results c1Step).fatalErr = none ∧
        (runExecuteStep c1Steps allEnabledStart c1WaitBehavior
          (initState c1Steps allEnabledStart).results c1Step).status
          = StepResultStatus.FAILURE ∧
        (schedStep c1Steps allEnabledStart c1WaitBehavior
          (initState c1Steps allEnabledStart) c1Step).rejected = none) ∧
      ((runExecuteStep c1Steps allEnabledStart c1FlushBehavior
            (initState c1Steps allEnabledStart).results c1Step).fatalErr
          = some (RunError.flushError c1Step.id) ∧
        (schedStep c1Steps allEnabledStart c1FlushBehavior
            (initState c1Steps allEnabledStart) c1Step).rejected
          = some (RunError.flushError c1Step.id) ∧
        (schedStep c1Steps allEnabledStart c1FlushBehavior
            (initState c1Steps allEnabledStart) c1Step).results
          = (initState c1Steps allEnabledStart).results) :=
  ⟨wait_failure_downgrades_flush_failure_rejects.1 c1Steps allEnabledStart c1WaitBehavior
      (initState c1Steps allEnabledStart) c1Step rfl rfl rfl (by decide) (by decide),
    wait_failure_downgrades_flush_failure_rejects.2 c1Steps allEnabledStart c1FlushBehavior
      (initState c1Steps allEnabledStart) c1Step rfl (by decide) (by decide)⟩

/-- C1 counterexample: in a run whose only step's `jobState.flush()` throws
after a successful handler, the promise rejects with the flush error - it does
not resolve with the step downgraded to `FAILURE` as the claim states. -/
theorem flush_error_rejects_run_counterexample :
    executeStepDependencyGraph c1Steps allEnabledStart c1FlushBehavior (fun _ => 0)
      = Except.error (RunError.flushError idA) := by rfl

/-- C6: for a step executed via its execution handler (no cache path, or a
cache directory that yielded nothing) whose handler returns without throwing
and whose flush and upload-wait succeed, the status becomes
`PARTIAL_SUCCESS_DUE_TO_DEPENDENCY_FAILURE` exactly when some transitive
dependency's result is `FAILURE` or
`PARTIAL_SUCCESS_DUE_TO_DEPENDENCY_FAILURE`; otherwise it becomes `SUCCESS`,
and a warning listing the encountered types missing from the step's declared
types is emitted exactly when that list is nonempty. -/
theorem handler_success_dependency_failure_and_warning
    (steps : List StepDef) (startStates : String → StartState)
    (behavior : String → StepBehavior) (st : SchedState) (step : StepDef)
    (hcp : hasCachePath startStates step.id = false ∨
      (behavior step.id).cacheOutcome = CacheLoadOutcome.empty)
    (hok : (behavior step.id).handlerOutcome = HandlerOutcome.ok)
    (hf : (behavior step.id).flushThrows = false)
    (hwu : ((behavior step.id).hasWaitUploads && (behavior step.id).waitUploadsThrows)
      = false) :
    ((runExecuteStep steps startStates behavior st.results step).fatalErr = none ∧
      (runExecuteStep steps startStates behavior st.results step).handlerRan = true ∧
      (runExecuteStep steps startStates behavior st.results step).status =
        (if stepHasDependencyFailure steps st.results step.id then
          StepResultStatus.PARTIAL_SUCCESS_DUE_TO_DEPENDENCY_FAILURE
        else StepResultStatus.SUCCESS) ∧
      (schedStep steps startStates behavior st step).warnings =
        st.warnings ++
          (if stepHasDependencyFailure steps st.results step.id = false ∧
              undeclaredTypes step ((behavior step.id).encounteredTypes) ≠ [] then
            [(step.id, undeclaredTypes step ((behavior step.id).encounteredTypes))]
          else [])) := by
  have hrun : runExecuteStep steps startStates behavior st.results step
      = handlerPhase steps behavior st.results step (hasCachePath startStates step.id) := by
    rw [runExecuteStep_eq]
    rcases hcp with hcp | hcp
    · rw [hcp]
      rfl
    · by_cases h2 : hasCachePath startStates step.id = true
      · rw [if_pos h2, hcp, h2]
      · rw [if_neg h2]
        have h3 : hasCachePath startStates step.id = false := by
          simpa using h2
        rw [h3]
  by_cases hdf : stepHasDependencyFailure steps st.results step.id = true
  · have hrec : runExecuteStep steps startStates behavior st.results step =
        { fatalErr := none
          status := StepResultStatus.PARTIAL_SUCCESS_DUE_TO_DEPENDENCY_FAILURE
          warned := false, cacheRan := hasCachePath startStates step.id
          handlerRan := true } := by
      rw [hrun, handlerPhase_eq]
      simp only [hok]
      rw [if_pos hdf]
      exact flushAndUploadsPhase_clean _ _ _ _ _ _ hf hwu
    have hc2 : ¬(stepHasDependencyFailure steps st.results step.id = false ∧
        undeclaredTypes step ((behavior step.id).encounteredTypes) ≠ []) := by
      intro hcon
      rw [hdf] at hcon
      exact absurd hcon.1 (by simp)
    rw [schedStep_warnings, hrec, if_pos hdf, if_neg hc2]
    exact ⟨rfl, rfl, rfl, by simp⟩
  · have hrec : runExecuteStep steps startStates behavior st.results step =
        { fatalErr := none, status := StepResultStatus.SUCCESS
          warned := !(undeclaredTypes step ((behavior step.id).encounteredTypes)).isEmpty
          cacheRan := hasCachePath startStates step.id, handlerRan := true } := by
      rw [hrun, handlerPhase_eq]
      simp only [hok]
      rw [if_neg hdf]
      exact flushAndUploadsPhase_clean _ _ _ _ _ _ hf hwu
    have hdf2 : stepHasDependencyFailure steps st.results step.id = false := by
      simpa using hdf
    rw [schedStep_warnings, hrec, if_neg hdf]
    by_cases hu : undeclaredTypes step ((behavior step.id).encounteredTypes) = []
    · have hc2 : ¬(stepHasDependencyFailure steps st.results step.id = false ∧
          undeclaredTypes step ((behavior step.id).encounteredTypes) ≠ []) := by
        intro hcon
        exact hcon.2 hu
      rw [if_neg hc2]
      refine ⟨rfl, rfl, rfl, ?_⟩
      simp [hu]
    · have hc2 : stepHasDependencyFailure steps st.results step.id = false ∧
          undeclaredTypes step ((behavior step.id).encounteredTypes) ≠ [] := ⟨hdf2, hu⟩
      rw [if_pos hc2]
      refine ⟨rfl, rfl, rfl, ?_⟩
      have hu2 : ((undeclaredTypes step ((behavior step.id).encounteredTypes)).isEmpty)
          = false := by
        simpa [List.isEmpty_iff] using hu
      simp [hu2]

/-- Witness for the dependency-failure/undeclared-warning theorem: step `B`
(declaring `declared_type`, encountering `stray_type`) runs after its
dependency `A` failed. -/
theorem handler_success_dependency_failure_and_warning_witness :
    ((runExecuteStep c6Steps allEnabledStart c6Behavior c6State.results c6StepB).fatalErr
        = none ∧
      (runExecuteStep c6Steps allEnabledStart c6Behavior c6State.results c6StepB).handlerRan
        = true ∧
      (runExecuteStep c6Steps allEnabledStart c6Behavior c6State.results c6StepB).status =
        (if stepHasDependencyFailure c6Steps c6State.results c6StepB.id then
          StepResultStatus.PARTIAL_SUCCESS_DUE_TO_DEPENDENCY_FAILURE
        else StepResultStatus.SUCCESS) ∧
      (schedStep c6Steps allEnabledStart c6Behavior c6State c6StepB).warnings =
        c6State.warnings ++
          (if stepHasDependencyFailure c6Steps c6State.results c6StepB.id = false ∧
              undeclaredTypes c6StepB ((c6Behavior c6StepB.id).encounteredTypes) ≠ [] then
            [(c6StepB.id, undeclaredTypes c6StepB ((c6Behavior c6StepB.id).encounteredTypes))]
          else [])) :=
  handler_success_dependency_failure_and_warning c6Steps allEnabledStart c6Behavior
    c6State c6StepB (Or.inl rfl) rfl rfl rfl

/-- C10: a step whose cache loader reports `CACHED` keeps status `CACHED`
even when a dependency ended in `FAILURE` or
`PARTIAL_SUCCESS_DUE_TO_DEPENDENCY_FAILURE` (given flush and upload-wait
succeed): the dependency-failure check and the undeclared-type warning live
on the execution-handler path, which the cached step skips - its handler is
never invoked. -/
theorem cached_step_keeps_cached_despite_dependency_failure
    (steps : List StepDef) (startStates : String → StartState)
    (behavior : String → StepBehavior) (st : SchedState) (step : StepDef)
    (hcp : hasCachePath startStates step.id = true)
    (hload : (behavior step.id).cacheOutcome = CacheLoadOutcome.loaded)
    (hf : (behavior step.id).flushThrows = false)
    (hwu : ((behavior step.id).hasWaitUploads && (behavior step.id).waitUploadsThrows)
      = false)
    (hdf : stepHasDependencyFailure steps st.results step.id = true) :
    ((runExecuteStep steps startStates behavior st.results step).status
        = StepResultStatus.CACHED ∧
      (runExecuteStep steps startStates behavior st.results step).handlerRan = false ∧
      (runExecuteStep steps startStates behavior st.results step).cacheRan = true ∧
      (runExecuteStep steps startStates behavior st.results step).warned = false ∧
      (runExecuteStep steps startStates behavior st.results step).fatalErr = none) := by
  rw [runExecuteStep_eq, if_pos hcp]
  simp only [hload]
  rw [flushAndUploadsPhase_clean _ _ _ _ _ _ hf hwu]
  exact ⟨rfl, rfl, rfl, rfl, rfl⟩

/-- Witness for the cached-step theorem: step `B` loads from cache while its
dependency `A` has failed. -/
theorem cached_step_keeps_cached_despite_dependency_failure_witness :
    ((runExecuteStep c10Steps c10Start c10Behavior c10State.results
          (c10Steps.getD 1 default)).status = StepResultStatus.CACHED ∧
      (runExecuteStep c10Steps c10Start c10Behavior c10State.results
          (c10Steps.getD 1 default)).handlerRan = false ∧
      (runExecuteStep c10Steps c10Start c10Behavior c10State.results
          (c10Steps.getD 1 default)).cacheRan = true ∧
      (runExecuteStep c10Steps c10Start c10Behavior c10State.results
          (c10Steps.getD 1 default)).warned = false ∧
      (runExecuteStep c10Steps c10Start c10Behavior c10State.results
          (c10Steps.getD 1 default)).fatalErr = none) :=
  cached_step_keeps_cached_despite_dependency_failure c10Steps c10Start c10Behavior
    c10State (c10Steps.getD 1 default) (by rfl) rfl rfl rfl (by rfl)

theorem runUploadAttempts_spec (env : Nat → Option UploadError) (shrinkFuel : Nat) :
    ∀ (aRem attemptIdx : Nat) (batch : List SEntity)
      (r : Except UploadChunkFailure Unit) (posts : List (List SEntity)),
      runUploadAttempts env shrinkFuel aRem attemptIdx batch = some (r, posts) →
      (posts.length ≤ aRem ∧
        (0 < aRem → posts.getD 0 [] = batch) ∧
        ∀ i, i + 1 < posts.length →
          ∃ e, env (attemptIdx + i) = some e ∧
            ((isRequestUploadTooLargeError e = true →
                ∃ res, shrinkRawData shrinkFuel (posts.getD i []) =
                  some (Except.ok (res, posts.getD (i + 1) []))) ∧
              (isRequestUploadTooLargeError e = false →
                posts.getD (i + 1) [] = posts.getD i []))) := by
  intro aRem
  induction aRem with
  | zero =>
    intro attemptIdx batch r posts h
    simp only [runUploadAttempts] at h
    have hp : posts = [] := by
      injection h with h2
      injection h2 with h3 h4
      exact h4.symm
    subst hp
    refine ⟨by simp, by omega, ?_⟩
    intro i hi
    simp at hi
  | succ aRem ih =>
    intro attemptIdx batch r posts h
    simp only [runUploadAttempts] at h
    cases henv : env attemptIdx with
    | none =>
      simp only [henv] at h
      have hp : posts = [batch] := by
        injection h with h2
        injection h2 with h3 h4
        exact h4.symm
      subst hp
      refine ⟨by simp, fun _ => rfl, ?_⟩
      intro i hi
      simp at hi
    | some err =>
      simp only [henv] at h
      by_cases htl : isRequestUploadTooLargeError err = true
      · rw [if_pos htl] at h
        cases hsh : shrinkRawData shrinkFuel batch with
        | none =>
          simp only [hsh] at h
          exact Option.noConfusion h
        | some sres =>
          cases sres with
          | error e2 =>
            simp only [hsh] at h
            have hp : posts = [batch] := by
              injection h with h2
              injection h2 with h3 h4
              exact h4.symm
            subst hp
            refine ⟨by simp, fun _ => rfl, ?_⟩
            intro i hi
            simp at hi
          | ok pr =>
            obtain ⟨res0, batch2⟩ := pr
            simp only [hsh] at h
            by_cases haz : (aRem == 0) = true
            · rw [if_pos haz] at h
              have hp : posts = [batch] := by
                injection h with h2
                injection h2 with h3 h4
                exact h4.symm
              subst hp
              refine ⟨by simp, fun _ => rfl, ?_⟩
              intro i hi
              simp at hi
            · rw [if_neg haz] at h
              cases hrec : runUploadAttempts env shrinkFuel aRem (attemptIdx + 1) batch2 with
              | none =>
                simp only [hrec] at h
                exact Option.noConfusion h
              | some rp =>
                obtain ⟨r1, posts1⟩ := rp
                simp only [hrec] at h
                have hp : posts = batch :: posts1 := by
                  injection h with h2
                  injection h2 with h3 h4
                  exact h4.symm
                subst hp
                have harem : 0 < aRem := by
                  rcases Nat.eq_zero_or_pos aRem with h0 | h0
                  · subst h0; simp at haz
                  · exact h0
                have ihs := ih (attemptIdx + 1) batch2 r1 posts1 hrec
                refine ⟨by simpa using Nat.succ_le_succ ihs.1, fun _ => rfl, ?_⟩
                intro i hi
                cases i with
                | zero =>
                  refine ⟨err, by simpa using henv, ?_, ?_⟩
                  · intro _
                    have hhead : posts1.getD 0 [] = batch2 := ihs.2.1 harem
                    refine ⟨res0, ?_⟩
                    have hgd0 : (batch :: posts1).getD 0 [] = batch := rfl
                    have hgd1 : (batch :: posts1).getD 1 [] = posts1.getD 0 [] := rfl
                    rw [hgd0, hgd1, hhead, hsh]
                  · intro hcon
                    rw [htl] at hcon
                    cases hcon
                | succ j =>
                  have hj : j + 1 < posts1.length := by
                    simpa using hi
                  obtain ⟨e, he, hsp⟩ := ihs.2.2 j hj
                  refine ⟨e, ?_, ?_, ?_⟩
                  · rw [← he]
                    congr 1
                    omega
                  · intro ht
                    obtain ⟨res, hres⟩ := hsp.1 ht
                    refine ⟨res, ?_⟩
                    have hgd1 : (batch :: posts1).getD (j + 1) [] = posts1.getD j [] := rfl
                    have hgd2 : (batch :: posts1).getD (j + 2) []
                        = posts1.getD (j + 1) [] := rfl
                    rw [hgd1, hgd2, hres]
                  · intro ht
                    have hp2 := hsp.2 ht
                    have hgd1 : (batch :: posts1).getD (j + 1) [] = posts1.getD j [] := rfl
                    have hgd2 : (batch :: posts1).getD (j + 2) []
                        = posts1.getD (j + 1) [] := rfl
                    rw [hgd1, hgd2, hp2]
      · rw [if_neg htl] at h
        by_cases hje : (getSystemErrorResponseData err == some jobNotAwaitingUploadsCode) = true
        · rw [if_pos hje] at h
          have hp : posts = [batch] := by
            injection h with h2
            injection h2 with h3 h4
            exact h4.symm
          subst hp
          refine ⟨by simp, fun _ => rfl, ?_⟩
          intro i hi
          simp at hi
        · rw [if_neg hje] at h
          by_cases haz : (aRem == 0) = true
          · rw [if_pos haz] at h
            have hp : posts = [batch] := by
              injection h with h2
              injection h2 with h3 h4
              exact h4.symm
            subst hp
            refine ⟨by simp, fun _ => rfl, ?_⟩
            intro i hi
            simp at hi
          · rw [if_neg haz] at h
            cases hrec : runUploadAttempts env shrinkFuel aRem (attemptIdx + 1) batch with
            | none =>
              simp only [hrec] at h
              exact Option.noConfusion h
            | some rp =>
              obtain ⟨r1, posts1⟩ := rp
              simp only [hrec] at h
              have hp : posts = batch :: posts1 := by
                injection h with h2
                injection h2 with h3 h4
                exact h4.symm
              subst hp
              have harem : 0 < aRem := by
                rcases Nat.eq_zero_or_pos aRem with h0 | h0
                · subst h0; simp at haz
                · exact h0
              have ihs := ih (attemptIdx + 1) batch r1 posts1 hrec
              refine ⟨by simpa using Nat.succ_le_succ ihs.1, fun _ => rfl, ?_⟩
              intro i hi
              cases i with
              | zero =>
                have htl2 : isRequestUploadTooLargeError err = false := by
                  simpa using htl
                refine ⟨err, by simpa using henv, ?_, ?_⟩
                · intro hcon
                  rw [htl2] at hcon
                  cases hcon
                · intro _
                  have hhead : posts1.getD 0 [] = batch := ihs.2.1 harem
                  have hgd0 : (batch :: posts1).getD 0 [] = batch := rfl
                  have hgd1 : (batch :: posts1).getD 1 [] = posts1.getD 0 [] := rfl
                  rw [hgd0, hgd1, hhead]
              | succ j =>
                have hj : j + 1 < posts1.length := by
                  simpa using hi
                obtain ⟨e, he, hsp⟩ := ihs.2.2 j hj
                refine ⟨e, ?_, ?_, ?_⟩
                · rw [← he]
                  congr 1
                  omega
                · intro ht
                  obtain ⟨res, hres⟩ := hsp.1 ht
                  refine ⟨res, ?_⟩
                  have hgd1 : (batch :: posts1).getD (j + 1) [] = posts1.getD j [] := rfl
                  have hgd2 : (batch :: posts1).getD (j + 2) []
                      = posts1.getD (j + 1) [] := rfl
                  rw [hgd1, hgd2, hres]
                · intro ht
                  have hp2 := hsp.2 ht
                  have hgd1 : (batch :: posts1).getD (j + 1) [] = posts1.getD j [] := rfl
                  have hgd2 : (batch :: posts1).getD (j + 2) []
                      = posts1.getD (j + 1) [] := rfl
                  rw [hgd1, hgd2, hp2]

/-- C8: every `uploadDataChunk` call performs at most 5 POST attempts (with
configured initial delay 200 ms and multiplicative factor 1.05); when an
attempt fails with HTTP status 413 or code `RequestEntityTooLargeException`,
`shrinkRawData` is applied to the posted batch and the next attempt posts
exactly the shrunken batch (in the source the mutation is in place, so the
retry reuses the same array); a non-too-large failure retries the batch
unchanged. -/
theorem upload_retry_policy_and_inplace_shrink
    (env : Nat → Option UploadError) (shrinkFuel : Nat) (batch : List SEntity)
    (r : Except UploadChunkFailure Unit) (posts : List (List SEntity))
    (h : uploadDataChunk env shrinkFuel batch = some (r, posts)) :
    posts.length ≤ uploadRetryMaxAttempts ∧
      uploadRetryMaxAttempts = 5 ∧ uploadRetryDelayMs = 200 ∧
      uploadRetryFactor = 21 / 20 ∧
      posts.getD 0 [] = batch ∧
      ∀ i, i + 1 < posts.length →
        ∃ e, env i = some e ∧
          ((isRequestUploadTooLargeError e = true →
              ∃ res, shrinkRawData shrinkFuel (posts.getD i []) =
                some (Except.ok (res, posts.getD (i + 1) []))) ∧
            (isRequestUploadTooLargeError e = false →
              posts.getD (i + 1) [] = posts.getD i [])) := by
  have hs := runUploadAttempts_spec env shrinkFuel uploadRetryMaxAttempts 0 batch r posts h
  refine ⟨hs.1, rfl, rfl, by norm_num [uploadRetryFactor], ?_, ?_⟩
  · exact hs.2.1 (by norm_num [uploadRetryMaxAttempts])
  · intro i hi
    simpa using hs.2.2 i hi

/-- Witness for the retry-policy theorem: the first attempt fails with
`RequestEntityTooLargeException`, the second succeeds. -/
theorem upload_retry_policy_and_inplace_shrink_witness :
    uploadDataChunk w8Env 1 [] = some (Except.ok (), [[], []]) ∧
      ([([] : List SEntity), []].length ≤ uploadRetryMaxAttempts ∧
        uploadRetryMaxAttempts = 5 ∧ uploadRetryDelayMs = 200 ∧
        uploadRetryFactor = 21 / 20 ∧
        [([] : List SEntity), []].getD 0 [] = [] ∧
        ∀ i, i + 1 < [([] : List SEntity), []].length →
          ∃ e, w8Env i = some e ∧
            ((isRequestUploadTooLargeError e = true →
                ∃ res, shrinkRawData 1 ([([] : List SEntity), []].getD i []) =
                  some (Except.ok (res, [([] : List SEntity), []].getD (i + 1) []))) ∧
              (isRequestUploadTooLargeError e = false →
                [([] : List SEntity), []].getD (i + 1) []
                  = [([] : List SEntity), []].getD i []))) :=
  ⟨by rfl,
    upload_retry_policy_and_inplace_shrink w8Env 1 [] (Except.ok ()) [[], []] (by rfl)⟩

/-- C7 counterexample: an upload error whose response body carries
`JOB_NOT_AWAITING_UPLOADS` but which also reports HTTP status 413 takes the
too-large branch of `handleUploadDataChunkError` first (the `else if` testing
the body code is never reached): the batch is shrunk, all five attempts run,
and `uploadDataChunk` settles with the exhaustion error, not the fatal
`INTEGRATION_UPLOAD_AFTER_JOB_ENDED` - refuting the claim as stated for this
input. -/
theorem job_ended_with_413_retries_counterexample :
    uploadDataChunk x7Env 1 [] =
      some (Except.error (UploadChunkFailure.exhausted x7Err), [[], [], [], [], []]) ∧
      x7Err.responseErrorCode = some jobNotAwaitingUploadsCode :=
  ⟨by rfl, rfl⟩

/-- C7 (corrected): for an upload attempt failing with an error that is not a
too-large error and whose response body carries `JOB_NOT_AWAITING_UPLOADS`,
the retry loop throws the fatal `INTEGRATION_UPLOAD_AFTER_JOB_ENDED` at once -
no further attempt is posted - and `synchronizeCollectedData` still invokes
`abortSynchronization` before re-raising the upload failure. -/
theorem job_ended_fatal_stop_and_abort :
    (∀ (env : Nat → Option UploadError) (shrinkFuel aRem attemptIdx : Nat)
        (batch : List SEntity) (e : UploadError),
        env attemptIdx = some e →
        isRequestUploadTooLargeError e = false →
        e.responseErrorCode = some jobNotAwaitingUploadsCode →
        (runUploadAttempts env shrinkFuel (aRem + 1) attemptIdx batch =
            some (Except.error UploadChunkFailure.uploadAfterJobEnded, [batch]) ∧
          uploadFailureIsFatal UploadChunkFailure.uploadAfterJobEnded = true)) ∧
    (∀ (senv : SyncEnv) (ue : UploadChunkFailure) (j j0 : SyncJob),
        senv.initiateResult = Except.ok j0 →
        senv.uploadResult = some ue →
        senv.abortResult = Except.ok j →
        synchronizeCollectedData senv =
          (Except.error (SyncError.uploadFailed ue),
            [SyncCall.callInitiate, SyncCall.callUpload, SyncCall.callAbort,
              SyncCall.awaitEventsIdle])) := by
  constructor
  · intro env shrinkFuel aRem attemptIdx batch e henv htl hcode
    refine ⟨?_, rfl⟩
    simp only [runUploadAttempts, henv, htl, getSystemErrorResponseData, hcode]
    simp
  · intro senv ue j j0 hinit hup habort
    simp only [synchronizeCollectedData, hinit, hup, habort]

/-- Witness for the fatal-stop theorem: a first-attempt
`JOB_NOT_AWAITING_UPLOADS` failure with a clean abort. -/
theorem job_ended_fatal_stop_and_abort_witness :
    (runUploadAttempts w7Env 1 (4 + 1) 0 [] =
        some (Except.error UploadChunkFailure.uploadAfterJobEnded, [[]]) ∧
      uploadFailureIsFatal UploadChunkFailure.uploadAfterJobEnded = true) ∧
      synchronizeCollectedData w7SyncEnv =
        (Except.error (SyncError.uploadFailed UploadChunkFailure.uploadAfterJobEnded),
          [SyncCall.callInitiate, SyncCall.callUpload, SyncCall.callAbort,
            SyncCall.awaitEventsIdle]) :=
  ⟨job_ended_fatal_stop_and_abort.1 w7Env 1 4 0 [] w7Err rfl (by rfl) rfl,
    job_ended_fatal_stop_and_abort.2 w7SyncEnv UploadChunkFailure.uploadAfterJobEnded
      w7Job w7Job rfl rfl rfl⟩

theorem reaches_mono (steps : List StepDef) :
    ∀ {n m : Nat}, n ≤ m → ∀ {a b : String},
      reaches steps n a b = true → reaches steps m a b = true := by
  intro n
  induction n with
  | zero =>
    intro m hnm a b h
    simp [reaches] at h
  | succ n ih =>
    intro m hnm a b h
    obtain ⟨m2, rfl⟩ : ∃ m2, m = m2 + 1 := ⟨m - 1, by omega⟩
    simp only [reaches, List.any_eq_true, Bool.or_eq_true] at h ⊢
    obtain ⟨d, hd, hdb⟩ := h
    refine ⟨d, hd, ?_⟩
    rcases hdb with h2 | h2
    · exact Or.inl h2
    · exact Or.inr (ih (by omega) h2)

theorem directDeps_exists_step {steps : List StepDef} {a d : String}
    (hd : d ∈ directDeps steps a) : ∃ s ∈ steps, s.id = a ∧ d ∈ s.dependsOn := by
  unfold directDeps at hd
  cases hfind : steps.find? (fun s => s.id == a) with
  | none => rw [hfind] at hd; simp at hd
  | some s =>
    rw [hfind] at hd
    refine ⟨s, List.mem_of_find?_eq_some hfind, ?_, hd⟩
    have := List.find?_some hfind
    simpa using this

theorem rank_lt_of_direct {steps : List StepDef} {rank : String → Nat}
    (hr : IsTopoRank steps rank) {a d : String} (hd : d ∈ directDeps steps a) :
    rank d < rank a := by
  obtain ⟨s, hs, hsa, hdd⟩ := directDeps_exists_step hd
  have h2 := hr.1 s hs d hdd
  rwa [hsa] at h2

theorem reaches_collapse {steps : List StepDef} {rank : String → Nat}
    (hr : IsTopoRank steps rank) :
    ∀ {m : Nat} {a b : String}, reaches steps m a b = true →
      reaches steps (rank a) a b = true := by
  intro m
  induction m with
  | zero => intro a b h; simp [reaches] at h
  | succ m ih =>
    intro a b h
    simp only [reaches, List.any_eq_true, Bool.or_eq_true] at h
    obtain ⟨d, hd, hdb⟩ := h
    have hlt : rank d < rank a := rank_lt_of_direct hr hd
    obtain ⟨k, hk⟩ : ∃ k, rank a = k + 1 := ⟨rank a - 1, by omega⟩
    rw [hk]
    simp only [reaches, List.any_eq_true, Bool.or_eq_true]
    refine ⟨d, hd, ?_⟩
    rcases hdb with h2 | h2
    · exact Or.inl h2
    · exact Or.inr (reaches_mono steps (by omega) (ih h2))

theorem steps_length_pos_of_direct {steps : List StepDef} {a d : String}
    (hd : d ∈ directDeps steps a) : 1 ≤ steps.length := by
  obtain ⟨s, hs, _, _⟩ := directDeps_exists_step hd
  have := List.ne_nil_of_mem hs
  cases steps with
  | nil => exact absurd rfl this
  | cons x xs => simp

theorem dependsOnTrans_of_direct {steps : List StepDef} {a d : String}
    (hd : d ∈ directDeps steps a) : dependsOnTrans steps a d = true := by
  have h1 := steps_length_pos_of_direct hd
  obtain ⟨k, hk⟩ : ∃ k, steps.length = k + 1 := ⟨steps.length - 1, by omega⟩
  unfold dependsOnTrans
  rw [hk]
  simp only [reaches, List.any_eq_true, Bool.or_eq_true]
  exact ⟨d, hd, Or.inl (by simp)⟩

theorem dependsOnTrans_head {steps : List StepDef} {rank : String → Nat}
    (hr : IsTopoRank steps rank) {a d c : String} (hd : d ∈ directDeps steps a)
    (h : dependsOnTrans steps d c = true) : dependsOnTrans steps a c = true := by
  have h1 := steps_length_pos_of_direct hd
  obtain ⟨k, hk⟩ : ∃ k, steps.length = k + 1 := ⟨steps.length - 1, by omega⟩
  have h2 : reaches steps (rank d) d c = true := reaches_collapse hr h
  have h3 : rank d ≤ k := by
    have h4 := rank_lt_of_direct hr hd
    have h5 := hr.2 a
    omega
  unfold dependsOnTrans
  rw [hk]
  simp only [reaches, List.any_eq_true, Bool.or_eq_true]
  exact ⟨d, hd, Or.inr (reaches_mono steps h3 h2)⟩

theorem dependsOnTrans_dest {steps : List StepDef} {a c : String}
    (h : dependsOnTrans steps a c = true) :
    ∃ d ∈ directDeps steps a, (d = c ∨ dependsOnTrans steps d c = true) := by
  unfold dependsOnTrans at h ⊢
  cases hl : steps.length with
  | zero => rw [hl] at h; simp [reaches] at h
  | succ k =>
    rw [hl] at h
    simp only [reaches, List.any_eq_true, Bool.or_eq_true] at h
    obtain ⟨d, hd, hdb⟩ := h
    refine ⟨d, hd, ?_⟩
    rcases hdb with h2 | h2
    · exact Or.inl (by simpa using h2)
    · right
      exact reaches_mono steps (by omega) h2

theorem rank_lt_of_reaches {steps : List StepDef} {rank : String → Nat}
    (hr : IsTopoRank steps rank) :
    ∀ (m : Nat) {a b : String}, reaches steps m a b = true → rank b < rank a := by
  intro m
  induction m with
  | zero => intro a b h; simp [reaches] at h
  | succ m ih =>
    intro a b h
    simp only [reaches, List.any_eq_true, Bool.or_eq_true] at h
    obtain ⟨d, hd, hdb⟩ := h
    have h1 := rank_lt_of_direct hr hd
    rcases hdb with h2 | h2
    · have h3 : d = b := by simpa using h2
      rw [h3] at h1
      exact h1
    · have h4 := ih h2
      omega

theorem rank_lt_of_dependsOnTrans {steps : List StepDef} {rank : String → Nat}
    (hr : IsTopoRank steps rank) {a b : String}
    (h : dependsOnTrans steps a b = true) : rank b < rank a :=
  rank_lt_of_reaches hr steps.length h

theorem seededDisabled_dest {steps : List StepDef} {startStates : String → StartState}
    (hwf : DepsWellFormed steps) {a : String}
    (h : seededDisabled steps startStates a = true)
    (hna : (startStates a).disabled = false) :
    ∃ d ∈ directDeps steps a,
      seededDisabled steps startStates d = true ∧ d ∈ stepIds steps := by
  unfold seededDisabled at h
  rw [hna] at h
  simp only [Bool.false_or] at h
  unfold hasDisabledDependencies at h
  rw [List.any_eq_true] at h
  obtain ⟨x, hx, hxb⟩ := h
  rw [Bool.and_eq_true] at hxb
  obtain ⟨htrans, hdis⟩ := hxb
  obtain ⟨d, hd, hdc⟩ := dependsOnTrans_dest htrans
  have hdid : d ∈ stepIds steps := by
    obtain ⟨s, hs, hsa, hdd⟩ := directDeps_exists_step hd
    exact hwf.2 s hs d hdd
  refine ⟨d, hd, ?_, hdid⟩
  rcases hdc with rfl | hdc
  · unfold seededDisabled
    rw [hdis]
    simp
  · unfold seededDisabled hasDisabledDependencies
    rw [Bool.or_eq_true]
    right
    rw [List.any_eq_true]
    refine ⟨x, hx, ?_⟩
    rw [Bool.and_eq_true]
    exact ⟨hdc, hdis⟩

theorem seededDisabled_of_direct {steps : List StepDef} {startStates : String → StartState}
    {rank : String → Nat} (hr : IsTopoRank steps rank) {a d : String}
    (hd : d ∈ directDeps steps a) (hdid : d ∈ stepIds steps)
    (h : seededDisabled steps startStates d = true) :
    seededDisabled steps startStates a = true := by
  unfold seededDisabled at h
  rw [Bool.or_eq_true] at h
  unfold seededDisabled hasDisabledDependencies
  rw [Bool.or_eq_true]
  right
  rw [List.any_eq_true]
  rcases h with h | h
  · refine ⟨d, hdid, ?_⟩
    rw [Bool.and_eq_true]
    exact ⟨dependsOnTrans_of_direct hd, h⟩
  · unfold hasDisabledDependencies at h
    rw [List.any_eq_true] at h
    obtain ⟨x, hx, hxb⟩ := h
    rw [Bool.and_eq_true] at hxb
    refine ⟨x, hx, ?_⟩
    rw [Bool.and_eq_true]
    exact ⟨dependsOnTrans_head hr hd hxb.1, hxb.2⟩

theorem filter_length_lt {α : Type} {l : List α} {p : α → Bool} {x : α}
    (hx : x ∈ l) (hpx : p x = false) : (l.filter p).length < l.length := by
  induction l with
  | nil => simp at hx
  | cons a rest ih =>
    rcases List.mem_cons.mp hx with rfl | hx2
    · rw [List.filter_cons, hpx]
      have h2 := List.length_filter_le p rest
      simp
      omega
    · by_cases hpa : p a = true
      · rw [List.filter_cons, hpa]
        have h2 := ih hx2
        simp
        omega
      · rw [List.filter_cons]
        rw [Bool.not_eq_true] at hpa
        rw [hpa]
        have h2 := ih hx2
        simp
        omega

theorem exists_min_rank {l : List String} (f : String → Nat) (h : l ≠ []) :
    ∃ m ∈ l, ∀ x ∈ l, f m ≤ f x := by
  induction l with
  | nil => exact absurd rfl h
  | cons a rest ih =>
    cases rest with
    | nil =>
      refine ⟨a, List.mem_cons_self _ _, ?_⟩
      intro x hx
      rcases List.mem_cons.mp hx with rfl | hx2
      · exact Nat.le_refl _
      · simp at hx2
    | cons b rest2 =>
      obtain ⟨m, hm, hmin⟩ := ih (by simp)
      by_cases hle : f a ≤ f m
      · refine ⟨a, List.mem_cons_self _ _, ?_⟩
        intro x hx
        rcases List.mem_cons.mp hx with rfl | hx2
        · exact Nat.le_refl _
        · exact Nat.le_trans hle (hmin x hx2)
      · refine ⟨m, List.mem_cons_of_mem _ hm, ?_⟩
        intro x hx
        rcases List.mem_cons.mp hx with rfl | hx2
        · omega
        · exact hmin x hx2

theorem topoAux_complete {steps : List StepDef} {rank : String → Nat}
    (hr : IsTopoRank steps rank) :
    ∀ (fuel : Nat) (remaining : List String), remaining.length ≤ fuel →
      ∀ id ∈ remaining, id ∈ topoAux steps fuel remaining := by
  intro fuel
  induction fuel with
  | zero =>
    intro remaining hlen id hid
    have h2 : remaining = [] := List.length_eq_zero.mp (Nat.le_zero.mp hlen)
    subst h2
    simp at hid
  | succ n ih =>
    intro remaining hlen id hid
    have hne : remaining ≠ [] := List.ne_nil_of_mem hid
    obtain ⟨m, hm, hmin⟩ := exists_min_rank rank hne
    have hmleaf : m ∈ topoRound steps remaining := by
      unfold topoRound
      rw [List.mem_filter]
      refine ⟨hm, ?_⟩
      rw [List.all_eq_true]
      intro d hd
      by_cases hdm : d ∈ remaining
      · have h3 := hmin d hdm
        have h4 := rank_lt_of_direct hr hd
        omega
      · simp [hdm]
    have hlsne : ¬(topoRound steps remaining).isEmpty = true := by
      rw [List.isEmpty_iff]
      intro hcon
      rw [hcon] at hmleaf
      simp at hmleaf
    simp only [topoAux]
    rw [if_neg hlsne]
    by_cases hidls : id ∈ topoRound steps remaining
    · exact List.mem_append_left _ hidls
    · refine List.mem_append_right _ ?_
      apply ih
      · have h5 : (remaining.filter
            (fun id2 => !(topoRound steps remaining).contains id2)).length
            < remaining.length := by
          apply filter_length_lt hm
          simp
          exact hmleaf
        omega
      · rw [List.mem_filter]
        refine ⟨hid, ?_⟩
        simp [hidls]

theorem mem_topoOrder {steps : List StepDef} {rank : String → Nat}
    (hr : IsTopoRank steps rank) {id : String} (hid : id ∈ stepIds steps) :
    id ∈ topoOrder steps :=
  topoAux_complete hr (stepIds steps).length (stepIds steps) (Nat.le_refl _) id hid

theorem mapLookup_cons {α : Type} (p : String × α) (rest : List (String × α)) (k : String) :
    mapLookup (p :: rest) k = if p.1 == k then some p.2 else mapLookup rest k := by
  by_cases h : (p.1 == k) = true
  · simp [mapLookup, List.find?_cons, h]
  · simp only [Bool.not_eq_true] at h
    simp [mapLookup, List.find?_cons, h]

theorem mapLookup_map_self {α : Type} (l : List String) (f : String → α) (k : String) :
    mapLookup (l.map (fun id => (id, f id))) k = if k ∈ l then some (f k) else none := by
  induction l with
  | nil => simp [mapLookup]
  | cons a rest ih =>
    rw [List.map_cons, mapLookup_cons]
    by_cases h : (a == k) = true
    · have ha : a = k := beq_iff_eq.mp h
      subst ha
      simp [h]
    · have ha : a ≠ k := by simpa using h
      rw [if_neg (by simpa using h), ih]
      by_cases hk : k ∈ rest
      · rw [if_pos hk, if_pos (List.mem_cons_of_mem _ hk)]
      · rw [if_neg hk, if_neg ?_]
        intro hcon
        rcases List.mem_cons.mp hcon with h2 | h2
        · exact ha h2.symm
        · exact hk h2

theorem mapLookup_buildStepResultsMap {steps : List StepDef}
    {startStates : String → StartState} {rank : String → Nat}
    (hr : IsTopoRank steps rank) {id : String} (hid : id ∈ stepIds steps) :
    ∃ r, mapLookup (buildStepResultsMap steps startStates) id = some r ∧
      r.status = (if seededDisabled steps startStates id then StepResultStatus.DISABLED
        else StepResultStatus.PENDING_EVALUATION) := by
  unfold buildStepResultsMap
  rw [mapLookup_map_self]
  rw [if_pos (mem_topoOrder hr hid)]
  exact ⟨_, rfl, rfl⟩

theorem mapLookup_updateStepResultStatus_ne (m : List (String × IntegrationStepResult))
    (stepId : String) (status : StepResultStatus) (enc : List String) {id : String}
    (h : id ≠ stepId) :
    mapLookup (updateStepResultStatus m stepId status enc) id = mapLookup m id := by
  unfold updateStepResultStatus
  cases hm : mapLookup m stepId with
  | none => rfl
  | some r => exact mapLookup_mapSet_ne m stepId _ (beq_eq_false_iff_ne.mpr h)

theorem mapLookup_updateStepResultStatus_self (m : List (String × IntegrationStepResult))
    (stepId : String) (status : StepResultStatus) (enc : List String)
    {r : IntegrationStepResult} (h : mapLookup m stepId = some r) :
    mapLookup (updateStepResultStatus m stepId status enc) stepId
      = some { r with status := status, encounteredTypes := enc } := by
  unfold updateStepResultStatus
  rw [h]
  exact mapLookup_mapSet_self m stepId _

theorem flushAndUploadsPhase_status_ne_pending (b : StepBehavior) (stepId : String)
    (status : StepResultStatus) (warned cacheRan handlerRan : Bool)
    (h : status ≠ StepResultStatus.PENDING_EVALUATION) :
    (flushAndUploadsPhase b stepId status warned cacheRan handlerRan).status
      ≠ StepResultStatus.PENDING_EVALUATION := by
  unfold flushAndUploadsPhase
  by_cases h1 : b.flushThrows = true
  · rw [if_pos h1]
    exact h
  · rw [if_neg h1]
    by_cases h2 : (b.hasWaitUploads && b.waitUploadsThrows) = true
    · rw [if_pos h2]
      simp
    · rw [if_neg h2]
      exact h

theorem handlerPhase_status_ne_pending (steps : List StepDef)
    (behavior : String → StepBehavior) (results : List (String × IntegrationStepResult))
    (step : StepDef) (cacheRan : Bool) :
    (handlerPhase steps behavior results step cacheRan).status
      ≠ StepResultStatus.PENDING_EVALUATION := by
  rw [handlerPhase_eq]
  cases hho : (behavior step.id).handlerOutcome
  · by_cases hdf : stepHasDependencyFailure steps results step.id = true
    · rw [if_pos hdf]
      exact flushAndUploadsPhase_status_ne_pending _ _ _ _ _ _ (by simp)
    · rw [if_neg hdf]
      exact flushAndUploadsPhase_status_ne_pending _ _ _ _ _ _ (by simp)
  · exact flushAndUploadsPhase_status_ne_pending _ _ _ _ _ _ (by simp)
  · simp

theorem runExecuteStep_status_ne_pending (steps : List StepDef)
    (startStates : String → StartState) (behavior : String → StepBehavior)
    (results : List (String × IntegrationStepResult)) (step : StepDef) :
    (runExecuteStep steps startStates behavior results step).status
      ≠ StepResultStatus.PENDING_EVALUATION := by
  rw [runExecuteStep_eq]
  by_cases hcp : hasCachePath startStates step.id = true
  · rw [if_pos hcp]
    cases hco : (behavior step.id).cacheOutcome
    · exact flushAndUploadsPhase_status_ne_pending _ _ _ _ _ _ (by simp)
    · exact handlerPhase_status_ne_pending _ _ _ _ _
    · exact flushAndUploadsPhase_status_ne_pending _ _ _ _ _ _ (by simp)
    · simp
  · rw [if_neg hcp]
    exact handlerPhase_status_ne_pending _ _ _ _ _

theorem schedStep_remaining (steps : List StepDef) (startStates : String → StartState)
    (behavior : String → StepBehavior) (st : SchedState) (step : StepDef) :
    (schedStep steps startStates behavior st step).remaining
      = st.remaining.erase step.id := rfl

theorem schedStep_dispatched (steps : List StepDef) (startStates : String → StartState)
    (behavior : String → StepBehavior) (st : SchedState) (step : StepDef) :
    (schedStep steps startStates behavior st step).dispatched
      = st.dispatched ++ [step.id] := rfl

theorem schedStep_cacheLoads (steps : List StepDef) (startStates : String → StartState)
    (behavior : String → StepBehavior) (st : SchedState) (step : StepDef) :
    (schedStep steps startStates behavior st step).cacheLoads
      = st.cacheLoads ++
          (if (runExecuteStep steps startStates behavior st.results step).cacheRan then
            [step.id]
          else []) := rfl

theorem schedStep_executedHandlers (steps : List StepDef)
    (startStates : String → StartState) (behavior : String → StepBehavior)
    (st : SchedState) (step : StepDef) :
    (schedStep steps startStates behavior st step).executedHandlers
      = st.executedHandlers ++
          (if (runExecuteStep steps startStates behavior st.results step).handlerRan then
            [step.id]
          else []) := rfl

theorem schedStep_preserves_inv {steps : List StepDef} {startStates : String → StartState}
    {behavior : String → StepBehavior} {rank : String → Nat}
    (hwf : DepsWellFormed steps) (hr : IsTopoRank steps rank)
    {st : SchedState} (hinv : SchedInv steps startStates st)
    {step : StepDef} (hmem : step ∈ steps)
    (hds : step.id ∈ dispatchList steps startStates st)
    (hrej : st.rejected = none) :
    SchedInv steps startStates (schedStep steps startStates behavior st step) := by
  obtain ⟨h1, h2, h3, h4, h5, h6, h7, h8, h9⟩ := hinv
  have hds2 := List.mem_filter.mp hds
  have hrem : step.id ∈ st.remaining := hds2.1
  have hcond := hds2.2
  rw [Bool.and_eq_true, Bool.and_eq_true] at hcond
  obtain ⟨⟨hleaf, hen⟩, hcomp⟩ := hcond
  have hstid : step.id ∈ stepIds steps := h7 step.id hrem
  have hdisabled : (startStates step.id).disabled = false := by
    unfold isStepEnabled at hen
    simpa using hen
  have hnotdis : seededDisabled steps startStates step.id = false := by
    by_contra hcon
    rw [Bool.not_eq_false] at hcon
    obtain ⟨d, hd, hddis, hdid⟩ := seededDisabled_dest hwf hcon hdisabled
    have hdrem : d ∈ st.remaining := (h3 d hdid hddis).1
    rw [List.all_eq_true] at hleaf
    have hl2 := hleaf d hd
    simp at hl2
    exact hl2 hdrem
  have hshape := schedStep_results_shape steps startStates behavior st step h1 h2
  refine ⟨hshape.1, hshape.2, ?_, ?_, ?_, ?_, ?_, ?_, ?_⟩
  · intro id hid hdis
    have hne : id ≠ step.id := by
      intro hcon
      rw [hcon, hnotdis] at hdis
      exact Bool.noConfusion hdis
    have hold := h3 id hid hdis
    rw [schedStep_remaining, schedStep_results]
    refine ⟨(List.mem_erase_of_ne hne).mpr hold.1, ?_⟩
    cases hfe : (runExecuteStep steps startStates behavior st.results step).fatalErr
    · rw [mapLookup_updateStepResultStatus_ne _ _ _ _ hne]
      exact hold.2
    · exact hold.2
  · intro id hid
    rw [schedStep_dispatched] at hid
    rcases List.mem_append.mp hid with hid2 | hid2
    · exact h4 id hid2
    · have h10 : id = step.id := by simpa using hid2
      subst h10
      exact ⟨hstid, hnotdis⟩
  · intro id hid
    rw [schedStep_cacheLoads] at hid
    rw [schedStep_dispatched]
    rcases List.mem_append.mp hid with hid2 | hid2
    · exact List.mem_append_left _ (h5 id hid2)
    · refine List.mem_append_right _ ?_
      by_cases hcr : (runExecuteStep steps startStates behavior st.results step).cacheRan
          = true
      · rw [if_pos hcr] at hid2
        simpa using hid2
      · rw [if_neg hcr] at hid2
        simp at hid2
  · intro id hid
    rw [schedStep_executedHandlers] at hid
    rw [schedStep_dispatched]
    rcases List.mem_append.mp hid with hid2 | hid2
    · exact List.mem_append_left _ (h6 id hid2)
    · refine List.mem_append_right _ ?_
      by_cases hcr : (runExecuteStep steps startStates behavior st.results step).handlerRan
          = true
      · rw [if_pos hcr] at hid2
        simpa using hid2
      · rw [if_neg hcr] at hid2
        simp at hid2
  · intro id hid
    rw [schedStep_remaining] at hid
    exact h7 id (List.mem_of_mem_erase hid)
  · rw [schedStep_remaining]
    exact h8.erase _
  · intro hrej2 id hid
    rw [schedStep_rejected] at hrej2
    rw [schedStep_results, schedStep_remaining]
    cases hfe : (runExecuteStep steps startStates behavior st.results step).fatalErr with
    | some e =>
      rw [hfe] at hrej2
      exact Option.noConfusion hrej2
    | none =>
      obtain ⟨r, hrl, hriff⟩ := h9 hrej id hid
      by_cases hideq : id = step.id
      · subst hideq
        refine ⟨_, mapLookup_updateStepResultStatus_self _ _ _ _ hrl, ?_⟩
        constructor
        · intro hcon
          have h10 : (runExecuteStep steps startStates behavior st.results step).status
              = StepResultStatus.PENDING_EVALUATION := by
            simpa using hcon
          exact absurd h10 (runExecuteStep_status_ne_pending _ _ _ _ _)
        · intro hcon
          have h11 := (h8.mem_erase_iff).mp hcon.2
          exact absurd rfl h11.1
      · rw [mapLookup_updateStepResultStatus_ne _ _ _ _ hideq]
        refine ⟨r, hrl, ?_⟩
        rw [hriff]
        constructor
        · intro hcon
          exact ⟨hcon.1, (List.mem_erase_of_ne hideq).mpr hcon.2⟩
        · intro hcon
          exact ⟨hcon.1, List.mem_of_mem_erase hcon.2⟩

theorem getD_mem_of_ne_nil {l : List String} (h : l ≠ []) (k : Nat) :
    l.getD (k % l.length) "" ∈ l := by
  have hl : 0 < l.length := List.length_pos.mpr h
  have hk : k % l.length < l.length := Nat.mod_lt _ hl
  rw [List.getD_eq_getElem l "" hk]
  exact List.getElem_mem hk

theorem find?_step_of_mem {steps : List StepDef} {id : String} (hid : id ∈ stepIds steps) :
    ∃ s, steps.find? (fun s => s.id == id) = some s := by
  obtain ⟨s, hs, hsid⟩ := List.mem_map.mp hid
  have h2 : (steps.find? (fun s => s.id == id)).isSome = true := by
    rw [List.find?_isSome]
    exact ⟨s, hs, by simp [hsid]⟩
  exact Option.isSome_iff_exists.mp h2

theorem runSched_preserves_inv {steps : List StepDef} {startStates : String → StartState}
    {behavior : String → StepBehavior} {sched : Nat → Nat} {rank : String → Nat}
    (hwf : DepsWellFormed steps) (hr : IsTopoRank steps rank) :
    ∀ (fuel : Nat) (st : SchedState), SchedInv steps startStates st →
      SchedInv steps startStates (runSched steps startStates behavior sched fuel st) := by
  intro fuel
  induction fuel with
  | zero => intro st h; exact h
  | succ n ih =>
    intro st hinv
    rw [runSched_succ]
    by_cases hrej : st.rejected.isSome = true
    · rw [if_pos hrej]
      exact hinv
    · rw [if_neg hrej]
      by_cases hds : (dispatchList steps startStates st).isEmpty = true
      · rw [if_pos hds]
        exact hinv
      · rw [if_neg hds]
        cases hfind : steps.find? (fun s => s.id ==
            (dispatchList steps startStates st).getD
              (sched n % (dispatchList steps startStates st).length) "") with
        | none => exact hinv
        | some step =>
          apply ih
          have hchos : (dispatchList steps startStates st).getD
              (sched n % (dispatchList steps startStates st).length) ""
              ∈ dispatchList steps startStates st := by
            apply getD_mem_of_ne_nil
            intro hcon
            rw [hcon] at hds
            simp at hds
          have hsid : step.id = (dispatchList steps startStates st).getD
              (sched n % (dispatchList steps startStates st).length) "" := by
            have h2 := List.find?_some hfind
            simpa using h2
          exact schedStep_preserves_inv hwf hr hinv (List.mem_of_find?_eq_some hfind)
            (hsid ▸ hchos) (Option.not_isSome_iff_eq_none.mp hrej)

theorem initState_inv {steps : List StepDef} {startStates : String → StartState}
    {rank : String → Nat} (hwf : DepsWellFormed steps) (hr : IsTopoRank steps rank) :
    SchedInv steps startStates (initState steps startStates) := by
  refine ⟨buildStepResultsMap_keys _ _, buildStepResultsMap_snd_id _ _, ?_, ?_, ?_, ?_,
    ?_, ?_, ?_⟩
  · intro id hid hdis
    exact ⟨hid, rfl⟩
  · intro id hid
    simp [initState] at hid
  · intro id hid
    simp [initState] at hid
  · intro id hid
    simp [initState] at hid
  · intro id hid
    exact hid
  · exact hwf.1
  · intro _ id hid
    obtain ⟨r, hrl, hrs⟩ := mapLookup_buildStepResultsMap hr hid
    refine ⟨r, hrl, ?_⟩
    by_cases hdis : seededDisabled steps startStates id = true
    · rw [if_pos hdis] at hrs
      rw [hrs]
      constructor
      · intro hcon
        exact StepResultStatus.noConfusion hcon
      · rintro ⟨hcon, _⟩
        rw [hdis] at hcon
        exact Bool.noConfusion hcon
    · rw [if_neg hdis] at hrs
      rw [hrs]
      constructor
      · intro _
        exact ⟨by simpa using hdis, hid⟩
      · intro _
        rfl

/-- C5: a step whose start state disables it, and every step transitively
depending on such a step, resolves with status `DISABLED` and is never
dispatched: it stays in the working graph for the whole run, and neither its
execution handler nor the cache loader is ever invoked for it. -/
theorem disabled_steps_never_dispatched (steps : List StepDef)
    (startStates : String → StartState) (behavior : String → StepBehavior)
    (sched : Nat → Nat) (rank : String → Nat)
    (hwf : DepsWellFormed steps) (hr : IsTopoRank steps rank)
    (id : String) (hid : id ∈ stepIds steps)
    (hdis : seededDisabled steps startStates id = true) :
    ((∃ r, mapLookup (finalState steps startStates behavior sched).results id = some r ∧
        r.status = StepResultStatus.DISABLED) ∧
      id ∈ (finalState steps startStates behavior sched).remaining ∧
      id ∉ (finalState steps startStates behavior sched).dispatched ∧
      id ∉ (finalState steps startStates behavior sched).cacheLoads ∧
      id ∉ (finalState steps startStates behavior sched).executedHandlers) := by
  have hinv : SchedInv steps startStates (finalState steps startStates behavior sched) :=
    runSched_preserves_inv hwf hr steps.length (initState steps startStates)
      (initState_inv hwf hr)
  obtain ⟨h1, h2, h3, h4, h5, h6, h7, h8, h9⟩ := hinv
  obtain ⟨r, hrl, hrs⟩ := mapLookup_buildStepResultsMap hr hid
  have hc3 := h3 id hid hdis
  refine ⟨⟨r, ?_, ?_⟩, hc3.1, ?_, ?_, ?_⟩
  · rw [hc3.2]
    exact hrl
  · rw [hrs, if_pos hdis]
  · intro hcon
    have h10 := h4 id hcon
    rw [hdis] at h10
    exact Bool.noConfusion h10.2
  · intro hcon
    have h10 := h4 id (h5 id hcon)
    rw [hdis] at h10
    exact Bool.noConfusion h10.2
  · intro hcon
    have h10 := h4 id (h6 id hcon)
    rw [hdis] at h10
    exact Bool.noConfusion h10.2

/-- Witness for the disabled-barrier theorem: `B` depends on the disabled
step `A`. -/
theorem disabled_steps_never_dispatched_witness :
    ((∃ r, mapLookup (finalState c5Steps c5Start (fun _ => plainOkBehavior)
          (fun _ => 0)).results idB = some r ∧
        r.status = StepResultStatus.DISABLED) ∧
      idB ∈ (finalState c5Steps c5Start (fun _ => plainOkBehavior)
        (fun _ => 0)).remaining ∧
      idB ∉ (finalState c5Steps c5Start (fun _ => plainOkBehavior)
        (fun _ => 0)).dispatched ∧
      idB ∉ (finalState c5Steps c5Start (fun _ => plainOkBehavior)
        (fun _ => 0)).cacheLoads ∧
      idB ∉ (finalState c5Steps c5Start (fun _ => plainOkBehavior)
        (fun _ => 0)).executedHandlers) :=
  disabled_steps_never_dispatched c5Steps c5Start (fun _ => plainOkBehavior)
    (fun _ => 0) c5Rank (by decide)
    ⟨by decide, fun id => by unfold c5Rank; split <;> decide⟩
    idB (by decide) (by decide)

theorem finalState_def (steps : List StepDef) (startStates : String → StartState)
    (behavior : String → StepBehavior) (sched : Nat → Nat) :
    finalState steps startStates behavior sched
      = runSched steps startStates behavior sched steps.length
          (initState steps startStates) := rfl

theorem flushAndUploadsPhase_fatalErr_none (b : StepBehavior) (stepId : String)
    (status : StepResultStatus) (warned cacheRan handlerRan : Bool)
    (hf : b.flushThrows = false) :
    (flushAndUploadsPhase b stepId status warned cacheRan handlerRan).fatalErr = none := by
  unfold flushAndUploadsPhase
  rw [hf]
  rw [if_neg (by simp)]
  by_cases h2 : (b.hasWaitUploads && b.waitUploadsThrows) = true
  · rw [if_pos h2]
  · rw [if_neg h2]

theorem runExecuteStep_fatalErr_none (steps : List StepDef)
    (startStates : String → StartState) (behavior : String → StepBehavior)
    (results : List (String × IntegrationStepResult)) (step : StepDef)
    (hh : (behavior step.id).handlerOutcome ≠ HandlerOutcome.errFatal)
    (hc : (behavior step.id).cacheOutcome ≠ CacheLoadOutcome.errFatal)
    (hf : (behavior step.id).flushThrows = false) :
    (runExecuteStep steps startStates behavior results step).fatalErr = none := by
  obtain ⟨s0, w0, c0, h0, heq⟩ :=
    runExecuteStep_through_flush steps startStates behavior results step hh hc
  rw [heq]
  exact flushAndUploadsPhase_fatalErr_none _ _ _ _ _ _ hf

theorem runSched_rejected_none {steps : List StepDef} {startStates : String → StartState}
    {behavior : String → StepBehavior} {sched : Nat → Nat}
    (hnf : NoFatalBehaviors behavior) :
    ∀ (fuel : Nat) (st : SchedState), st.rejected = none →
      (runSched steps startStates behavior sched fuel st).rejected = none := by
  intro fuel
  induction fuel with
  | zero => intro st h; exact h
  | succ n ih =>
    intro st hrej
    rw [runSched_succ]
    by_cases hrejb : st.rejected.isSome = true
    · rw [if_pos hrejb]
      exact hrej
    · rw [if_neg hrejb]
      by_cases hds : (dispatchList steps startStates st).isEmpty = true
      · rw [if_pos hds]
        exact hrej
      · rw [if_neg hds]
        cases hfind : steps.find? (fun s => s.id ==
            (dispatchList steps startStates st).getD
              (sched n % (dispatchList steps startStates st).length) "") with
        | none => exact hrej
        | some step =>
          apply ih
          rw [schedStep_rejected]
          exact runExecuteStep_fatalErr_none _ _ _ _ _ (hnf step.id).1 (hnf step.id).2.1
            (hnf step.id).2.2

theorem runSched_quiescent {steps : List StepDef} {startStates : String → StartState}
    {behavior : String → StepBehavior} {sched : Nat → Nat} {rank : String → Nat}
    (hwf : DepsWellFormed steps) (hr : IsTopoRank steps rank) :
    ∀ (fuel : Nat) (st : SchedState), SchedInv steps startStates st →
      st.remaining.length ≤ fuel →
      ((runSched steps startStates behavior sched fuel st).rejected.isSome = true ∨
        dispatchList steps startStates
          (runSched steps startStates behavior sched fuel st) = []) := by
  intro fuel
  induction fuel with
  | zero =>
    intro st hinv hlen
    have h0 : st.remaining = [] := List.length_eq_zero.mp (Nat.le_zero.mp hlen)
    right
    simp only [runSched]
    unfold dispatchList
    rw [h0]
    rfl
  | succ n ih =>
    intro st hinv hlen
    rw [runSched_succ]
    by_cases hrejb : st.rejected.isSome = true
    · rw [if_pos hrejb]
      left
      exact hrejb
    · rw [if_neg hrejb]
      by_cases hds : (dispatchList steps startStates st).isEmpty = true
      · rw [if_pos hds]
        right
        exact List.isEmpty_iff.mp hds
      · rw [if_neg hds]
        have hchos : (dispatchList steps startStates st).getD
            (sched n % (dispatchList steps startStates st).length) ""
            ∈ dispatchList steps startStates st := by
          apply getD_mem_of_ne_nil
          intro hcon
          rw [hcon] at hds
          simp at hds
        have hchrem := (List.mem_filter.mp hchos).1
        have hcid := hinv.2.2.2.2.2.2.1 _ hchrem
        obtain ⟨s0, hfind0⟩ := find?_step_of_mem hcid
        cases hfind : steps.find? (fun s => s.id ==
            (dispatchList steps startStates st).getD
              (sched n % (dispatchList steps startStates st).length) "") with
        | none =>
          rw [hfind0] at hfind
          exact Option.noConfusion hfind
        | some step =>
          have hsid : step.id = (dispatchList steps startStates st).getD
              (sched n % (dispatchList steps startStates st).length) "" := by
            have h2 := List.find?_some hfind
            simpa using h2
          apply ih
          · exact schedStep_preserves_inv hwf hr hinv (List.mem_of_find?_eq_some hfind)
              (hsid ▸ hchos) (Option.not_isSome_iff_eq_none.mp hrejb)
          · rw [schedStep_remaining]
            have hsrem : step.id ∈ st.remaining := hsid ▸ hchrem
            have hlen2 := List.length_erase_of_mem hsrem
            omega

/-- C4: in a run whose behaviours produce no fatal error (no fatal handler or
cache error, no flush error) over a well-formed acyclic step catalog, the run
settles unrejected and every step id's results entry holds a terminal status,
never `PENDING_EVALUATION`. -/
theorem resolved_statuses_are_terminal (steps : List StepDef)
    (startStates : String → StartState) (behavior : String → StepBehavior)
    (sched : Nat → Nat) (rank : String → Nat)
    (hwf : DepsWellFormed steps) (hr : IsTopoRank steps rank)
    (hnf : NoFatalBehaviors behavior) :
    (finalState steps startStates behavior sched).rejected = none ∧
      ∀ id ∈ stepIds steps,
        ∃ r, mapLookup (finalState steps startStates behavior sched).results id = some r ∧
          r.status ≠ StepResultStatus.PENDING_EVALUATION := by
  have hinv : SchedInv steps startStates (finalState steps startStates behavior sched) :=
    runSched_preserves_inv hwf hr steps.length (initState steps startStates)
      (initState_inv hwf hr)
  have hrejF : (finalState steps startStates behavior sched).rejected = none := by
    rw [finalState_def]
    exact runSched_rejected_none hnf steps.length (initState steps startStates) rfl
  have hqq := @runSched_quiescent steps startStates behavior sched rank hwf hr
    steps.length (initState steps startStates) (initState_inv hwf hr)
    (by simp [initState, stepIds])
  rw [← finalState_def] at hqq
  have hq : dispatchList steps startStates (finalState steps startStates behavior sched)
      = [] := by
    rcases hqq with h | h
    · rw [hrejF] at h
      exact absurd h (by simp)
    · exact h
  obtain ⟨h1, h2, h3, h4, h5, h6, h7, h8, h9⟩ := hinv
  have main : ∀ (n : Nat), ∀ id ∈ stepIds steps, rank id < n →
      seededDisabled steps startStates id = false →
      id ∉ (finalState steps startStates behavior sched).remaining := by
    intro n
    induction n with
    | zero =>
      intro id _ h
      omega
    | succ n ih =>
      intro id hid hrank hsd hcon
      have hdisp : id ∈ dispatchList steps startStates
          (finalState steps startStates behavior sched) := by
        refine List.mem_filter.mpr ⟨hcon, ?_⟩
        rw [Bool.and_eq_true, Bool.and_eq_true]
        refine ⟨⟨?_, ?_⟩, ?_⟩
        · rw [List.all_eq_true]
          intro d hd
          obtain ⟨sd, hsd2, hsd3, hsd4⟩ := directDeps_exists_step hd
          have hdid : d ∈ stepIds steps := hwf.2 sd hsd2 d hsd4
          by_cases hddis : seededDisabled steps startStates d = true
          · have h10 := seededDisabled_of_direct hr hd hdid hddis
            rw [hsd] at h10
            exact absurd h10 (by simp)
          · have hdf : seededDisabled steps startStates d = false := by
              simpa using hddis
            have hrd : rank d < rank id := rank_lt_of_direct hr hd
            have hdnot := ih d hdid (by omega) hdf
            simp [hdnot]
        · unfold isStepEnabled
          have hdf : (startStates id).disabled = false := by
            unfold seededDisabled at hsd
            exact (Bool.or_eq_false_iff.mp hsd).1
          rw [hdf]
          rfl
        · unfold stepDependenciesAreComplete
          rw [List.all_eq_true]
          intro t htid
          by_cases htr : dependsOnTrans steps id t = true
          · rw [htr]
            simp only [Bool.not_true, Bool.false_or]
            obtain ⟨rt, hrtl, hrtiff⟩ := h9 hrejF t htid
            rw [hrtl]
            by_cases hts : rt.status = StepResultStatus.PENDING_EVALUATION
            · have h11 := hrtiff.mp hts
              have hrt : rank t < rank id := rank_lt_of_dependsOnTrans hr htr
              have htnot := ih t htid (by omega) h11.1
              exact absurd h11.2 htnot
            · simp [hts]
          · have htr2 : dependsOnTrans steps id t = false := by
              simpa using htr
            rw [htr2]
            rfl
      rw [hq] at hdisp
      exact absurd hdisp (List.not_mem_nil id)
  refine ⟨hrejF, ?_⟩
  intro id hid
  obtain ⟨r, hrl, hriff⟩ := h9 hrejF id hid
  refine ⟨r, hrl, ?_⟩
  intro hcon
  have h10 := hriff.mp hcon
  exact main (rank id + 1) id hid (by omega) h10.1 h10.2

/-- Witness for the terminal-status theorem at a concrete two-step chain. -/
theorem resolved_statuses_are_terminal_witness :
    (finalState c4Steps allEnabledStart (fun _ => plainOkBehavior)
        (fun _ => 0)).rejected = none ∧
      ∀ id ∈ stepIds c4Steps,
        ∃ r, mapLookup (finalState c4Steps allEnabledStart (fun _ => plainOkBehavior)
            (fun _ => 0)).results id = some r ∧
          r.status ≠ StepResultStatus.PENDING_EVALUATION :=
  resolved_statuses_are_terminal c4Steps allEnabledStart (fun _ => plainOkBehavior)
    (fun _ => 0) c4Rank (by decide)
    ⟨by decide, fun id => by unfold c4Rank; split <;> decide⟩
    (fun _ =>
      ⟨(by decide : plainOkBehavior.handlerOutcome ≠ HandlerOutcome.errFatal),
        (by decide : plainOkBehavior.cacheOutcome ≠ CacheLoadOutcome.errFatal), rfl⟩)

theorem getD_map {α β : Type} (f : α → β) (l : List α) :
    ∀ (i : Nat), i < l.length → ∀ (d : α) (d2 : β),
      (l.map f).getD i d2 = f (l.getD i d) := by
  induction l with
  | nil => intro i hi; simp at hi
  | cons a rest ih =>
    intro i hi d d2
    cases i with
    | zero => rfl
    | succ j =>
      have hj : j < rest.length := by simpa using hi
      exact ih j hj d d2

theorem getD_set_self {α : Type} {l : List α} :
    ∀ {i : Nat}, i < l.length → ∀ (v : α) (d : α), (l.set i v).getD i d = v := by
  induction l with
  | nil => intro i hi; simp at hi
  | cons a rest ih =>
    intro i hi v d
    cases i with
    | zero => rfl
    | succ j =>
      have hj : j < rest.length := by simpa using hi
      exact ih hj v d

theorem getD_set_ne {α : Type} {l : List α} :
    ∀ {i j : Nat}, j ≠ i → ∀ (v : α) (d : α), (l.set i v).getD j d = l.getD j d := by
  induction l with
  | nil => intro i j hne v d; simp
  | cons a rest ih =>
    intro i j hne v d
    cases i with
    | zero =>
      cases j with
      | zero => exact absurd rfl hne
      | succ j2 => rfl
    | succ i2 =>
      cases j with
      | zero => rfl
      | succ j2 => exact ih (fun hcon => hne (by rw [hcon])) v d

theorem set_getD_self {α : Type} {l : List α} :
    ∀ {i : Nat}, i < l.length → ∀ (d : α), l.set i (l.getD i d) = l := by
  induction l with
  | nil => intro i hi; simp at hi
  | cons a rest ih =>
    intro i hi d
    cases i with
    | zero => rfl
    | succ j =>
      have hj : j < rest.length := by simpa using hi
      show a :: rest.set j (rest.getD j d) = a :: rest
      rw [ih hj d]

theorem getD_mem_of_lt {α : Type} {l : List α} :
    ∀ {i : Nat}, i < l.length → ∀ (d : α), l.getD i d ∈ l := by
  induction l with
  | nil => intro i hi; simp at hi
  | cons a rest ih =>
    intro i hi d
    cases i with
    | zero => exact List.mem_cons_self _ _
    | succ j =>
      have hj : j < rest.length := by simpa using hi
      exact List.mem_cons_of_mem _ (ih hj d)

theorem getD_append_length {α : Type} (l : List α) (p : α) (d : α) :
    (l ++ [p]).getD l.length d = p := by
  induction l with
  | nil => rfl
  | cons a rest ih => exact ih

theorem getD_append_left {α : Type} (l : List α) (p : α) :
    ∀ {j : Nat}, j < l.length → ∀ (d : α), (l ++ [p]).getD j d = l.getD j d := by
  induction l with
  | nil => intro j hj; simp at hj
  | cons a rest ih =>
    intro j hj d
    cases j with
    | zero => rfl
    | succ j2 =>
      have hj2 : j2 < rest.length := by simpa using hj
      exact ih hj2 d

theorem listMax_cons (s : Nat) (rest : List Nat) :
    listMax (s :: rest) = max s (listMax rest) := rfl

theorem le_listMax {l : List Nat} {x : Nat} (hx : x ∈ l) : x ≤ listMax l := by
  induction l with
  | nil => simp at hx
  | cons a rest ih =>
    rw [listMax_cons]
    rcases List.mem_cons.mp hx with rfl | hx2
    · exact Nat.le_max_left _ _
    · exact Nat.le_trans (ih hx2) (Nat.le_max_right _ _)

theorem listMax_mem_of_pos {l : List Nat} (h : 0 < listMax l) : listMax l ∈ l := by
  induction l with
  | nil => simp [listMax] at h
  | cons a rest ih =>
    rw [listMax_cons] at h ⊢
    by_cases hle : listMax rest ≤ a
    · rw [Nat.max_eq_left hle]
      exact List.mem_cons_self _ _
    · have h2 : a ≤ listMax rest := Nat.le_of_not_le hle
      rw [Nat.max_eq_right h2] at h ⊢
      exact List.mem_cons_of_mem _ (ih h)

theorem listMax_le {l : List Nat} {m : Nat} (h : ∀ x ∈ l, x ≤ m) : listMax l ≤ m := by
  induction l with
  | nil => exact Nat.zero_le _
  | cons a rest ih =>
    rw [listMax_cons]
    exact Nat.max_le.mpr ⟨h a (List.mem_cons_self _ _),
      ih (fun x hx => h x (List.mem_cons_of_mem _ hx))⟩

theorem listMax_eq_of {l : List Nat} {m : Nat} (hmem : m ∈ l) (hub : ∀ x ∈ l, x ≤ m) :
    listMax l = m :=
  Nat.le_antisymm (listMax_le hub) (le_listMax hmem)

theorem indexOf_eq_of_first {a : Nat} :
    ∀ {l : List Nat} {i : Nat}, i < l.length → l.getD i 0 = a →
      (∀ j, j < i → l.getD j 0 ≠ a) → l.indexOf a = i := by
  intro l
  induction l with
  | nil => intro i hi; simp at hi
  | cons b rest ih =>
    intro i hi ha hfirst
    cases i with
    | zero =>
      have hb : b = a := ha
      subst hb
      exact List.indexOf_cons_self b rest
    | succ j =>
      have hb : b ≠ a := hfirst 0 (Nat.succ_pos _)
      have hj : j < rest.length := by simpa using hi
      have hrest : rest.indexOf a = j :=
        ih hj ha (fun j2 hj2 => hfirst (j2 + 1) (by omega))
      rw [List.indexOf_cons_ne rest hb, hrest]

theorem firstExceedMax_eq (l : List Nat) :
    ∀ bs, firstExceedMax l bs =
      if bs < listMax l then some (l.indexOf (listMax l)) else none := by
  induction l with
  | nil =>
    intro bs
    simp [firstExceedMax, listMax]
  | cons s rest ih =>
    intro bs
    rw [listMax_cons]
    simp only [firstExceedMax]
    by_cases hbs : bs < s
    · rw [if_pos hbs, ih s]
      by_cases hsm : s < listMax rest
      · rw [if_pos hsm]
        have hmax : max s (listMax rest) = listMax rest := Nat.max_eq_right (Nat.le_of_lt hsm)
        have hne : s ≠ listMax rest := Nat.ne_of_lt hsm
        rw [hmax, if_pos (Nat.lt_trans hbs hsm), List.indexOf_cons_ne rest hne]
      · rw [if_neg hsm]
        have hmax : max s (listMax rest) = s := Nat.max_eq_left (by omega)
        rw [hmax, if_pos hbs]
        simp [List.indexOf_cons]
    · rw [if_neg hbs, ih bs]
      by_cases hbm : bs < listMax rest
      · rw [if_pos hbm]
        have hsm : s < listMax rest := by omega
        have hmax : max s (listMax rest) = listMax rest := Nat.max_eq_right (Nat.le_of_lt hsm)
        have hne : s ≠ listMax rest := Nat.ne_of_lt hsm
        rw [hmax, if_pos hbm, List.indexOf_cons_ne rest hne]
      · rw [if_neg hbm]
        have hmax : ¬ bs < max s (listMax rest) := by omega
        rw [if_neg hmax]

theorem getLargestIdxAux_eq (l : List Nat) :
    ∀ (k : Nat) (best : Option Nat) (bs : Nat),
      getLargestIdxAux l k best bs =
        match firstExceedMax l bs with
        | some j => some (k + j)
        | none => best := by
  induction l with
  | nil => intro k best bs; rfl
  | cons s rest ih =>
    intro k best bs
    simp only [getLargestIdxAux, firstExceedMax]
    by_cases hbs : bs < s
    · rw [if_pos hbs, if_pos hbs, ih]
      cases firstExceedMax rest s with
      | some j => exact congrArg some (by omega : k + 1 + j = k + (j + 1))
      | none => rfl
    · rw [if_neg hbs, if_neg hbs, ih]
      cases firstExceedMax rest bs with
      | some j => exact congrArg some (by omega : k + 1 + j = k + (j + 1))
      | none => rfl

theorem getLargestIdx_eq (l : List Nat) :
    getLargestIdx l =
      if 0 < listMax l then some (l.indexOf (listMax l)) else none := by
  unfold getLargestIdx
  rw [getLargestIdxAux_eq, firstExceedMax_eq]
  by_cases h : 0 < listMax l
  · rw [if_pos h]
    simp
  · rw [if_neg h]

theorem indexOf_lt_length_nat {l : List Nat} {a : Nat} (h : a ∈ l) :
    l.indexOf a < l.length := List.indexOf_lt_length.mpr h

theorem getD_indexOf_nat {l : List Nat} {a : Nat} (h : a ∈ l) :
    l.getD (l.indexOf a) 0 = a := by
  induction l with
  | nil => simp at h
  | cons b rest ih =>
    by_cases hb : b = a
    · subst hb
      rw [List.indexOf_cons_self]
      rfl
    · have h2 : a ∈ rest := by
        rcases List.mem_cons.mp h with h3 | h3
        · exact absurd h3.symm hb
        · exact h3
      rw [List.indexOf_cons_ne rest hb]
      exact ih h2

theorem getD_lt_indexOf_ne {l : List Nat} {a : Nat} :
    ∀ {j : Nat}, j < l.indexOf a → l.getD j 0 ≠ a := by
  induction l with
  | nil => intro j hj; simp [List.indexOf] at hj
  | cons b rest ih =>
    intro j hj
    by_cases hb : b = a
    · subst hb
      rw [List.indexOf_cons_self] at hj
      exact absurd hj (Nat.not_lt_zero j)
    · rw [List.indexOf_cons_ne rest hb] at hj
      cases j with
      | zero => exact fun hc => hb hc
      | succ j2 =>
        have hj2 : j2 < rest.indexOf a := Nat.lt_of_succ_lt_succ hj
        exact ih hj2

theorem getLargestIdx_spec {sizes : List Nat} {i : Nat}
    (h : getLargestIdx sizes = some i) :
    i < sizes.length ∧ sizes.getD i 0 = listMax sizes ∧ 0 < listMax sizes ∧
      ∀ j, j < i → sizes.getD j 0 < listMax sizes := by
  rw [getLargestIdx_eq] at h
  by_cases hm : 0 < listMax sizes
  · rw [if_pos hm] at h
    have hi : i = sizes.indexOf (listMax sizes) := by
      injection h with h2
      exact h2.symm
    subst hi
    have hmem := listMax_mem_of_pos hm
    refine ⟨indexOf_lt_length_nat hmem, getD_indexOf_nat hmem, hm, ?_⟩
    intro j hj
    have hne := getD_lt_indexOf_ne hj
    have hle : sizes.getD j 0 ≤ listMax sizes := by
      apply le_listMax
      apply getD_mem_of_lt
      have := indexOf_lt_length_nat hmem
      omega
    omega
  · rw [if_neg hm] at h
    exact Option.noConfusion h

theorem getLargestIdx_none {sizes : List Nat} (h : getLargestIdx sizes = none) :
    ∀ x ∈ sizes, x = 0 := by
  rw [getLargestIdx_eq] at h
  by_cases hm : 0 < listMax sizes
  · rw [if_pos hm] at h
    exact Option.noConfusion h
  · intro x hx
    have h2 := le_listMax hx
    omega

theorem getLargestIdx_set {sizes : List Nat} {i v : Nat}
    (hi : getLargestIdx sizes = some i) (hv : listMax sizes < v) :
    getLargestIdx (sizes.set i v) = some i := by
  obtain ⟨hlen, hval, hpos, hfirst⟩ := getLargestIdx_spec hi
  have hlen2 : (sizes.set i v).length = sizes.length := by simp
  have hub : ∀ x ∈ sizes.set i v, x ≤ v := by
    intro x hx
    rcases List.mem_or_eq_of_mem_set hx with hx2 | hx2
    · exact Nat.le_trans (le_listMax hx2) (Nat.le_of_lt hv)
    · omega
  have hmem : v ∈ sizes.set i v := by
    have h4 := @getD_mem_of_lt Nat (sizes.set i v) i (by rw [hlen2]; exact hlen) 0
    rwa [@getD_set_self Nat sizes i hlen v 0] at h4
  have hmax2 : listMax (sizes.set i v) = v := listMax_eq_of hmem hub
  rw [getLargestIdx_eq, hmax2, if_pos (by omega)]
  congr 1
  apply indexOf_eq_of_first (by omega) (getD_set_self hlen v 0)
  intro j hj
  rw [getD_set_ne (by omega) v 0]
  have hjlt := hfirst j hj
  omega

theorem largestItemAux_snd (l : List (String × JValue)) :
    ∀ best : String × Nat,
      (largestItemAux l best).2 = max best.2 (listMax (l.map (fun p => countedSize p.2))) := by
  induction l with
  | nil =>
    intro best
    simp [largestItemAux, listMax]
  | cons p rest ih =>
    intro best
    simp only [largestItemAux, List.map_cons, listMax_cons]
    by_cases hc : best.2 < countedSize p.2
    · rw [if_pos hc, ih]
      have h2 : (p.1, countedSize p.2).2 = countedSize p.2 := rfl
      rw [h2]
      omega
    · rw [if_neg hc, ih]
      omega

theorem largestItemAux_mem (l : List (String × JValue)) :
    ∀ best : String × Nat, largestItemAux l best = best ∨
      ∃ v, ((largestItemAux l best).1, v) ∈ l ∧
        countedSize v = (largestItemAux l best).2 := by
  induction l with
  | nil => intro best; exact Or.inl rfl
  | cons p rest ih =>
    intro best
    simp only [largestItemAux]
    by_cases hc : best.2 < countedSize p.2
    · rw [if_pos hc]
      rcases ih (p.1, countedSize p.2) with h | ⟨v, hv1, hv2⟩
      · rw [h]
        exact Or.inr ⟨p.2, List.mem_cons_self _ _, rfl⟩
      · exact Or.inr ⟨v, List.mem_cons_of_mem _ hv1, hv2⟩
    · rw [if_neg hc]
      rcases ih best with h | ⟨v, hv1, hv2⟩
      · exact Or.inl h
      · exact Or.inr ⟨v, List.mem_cons_of_mem _ hv1, hv2⟩

theorem largestItemAux_zero {l : List (String × JValue)}
    (h : ∀ p ∈ l, countedSize p.2 = 0) :
    ∀ best : String × Nat, largestItemAux l best = best := by
  induction l with
  | nil => intro best; rfl
  | cons p rest ih =>
    intro best
    have hp := h p (List.mem_cons_self _ _)
    simp only [largestItemAux]
    rw [if_neg (by omega)]
    exact ih (fun q hq => h q (List.mem_cons_of_mem _ hq)) best

theorem largestItemAux_append (l1 l2 : List (String × JValue)) :
    ∀ best, largestItemAux (l1 ++ l2) best = largestItemAux l2 (largestItemAux l1 best) := by
  induction l1 with
  | nil => intro best; rfl
  | cons p rest ih =>
    intro best
    simp only [List.cons_append, largestItemAux]
    by_cases hc : best.2 < countedSize p.2
    · rw [if_pos hc, if_pos hc]
      exact ih _
    · rw [if_neg hc, if_neg hc]
      exact ih _

theorem getLargestItemKeyAndByteSize_snd (l : List (String × JValue)) :
    (getLargestItemKeyAndByteSize l).2 = listMax (l.map (fun p => countedSize p.2)) := by
  unfold getLargestItemKeyAndByteSize
  rw [largestItemAux_snd]
  simp

theorem getLargestItemKeyAndByteSize_mem {l : List (String × JValue)}
    (h : 0 < (getLargestItemKeyAndByteSize l).2) :
    ∃ v, ((getLargestItemKeyAndByteSize l).1, v) ∈ l ∧
      countedSize v = (getLargestItemKeyAndByteSize l).2 := by
  unfold getLargestItemKeyAndByteSize at h ⊢
  rcases largestItemAux_mem l (emptyKey, 0) with h2 | h2
  · rw [h2] at h
    simp at h
  · exact h2

theorem mapLookup_of_mem_nodup {α : Type} {l : List (String × α)} {k : String} {v : α} :
    (l.map Prod.fst).Nodup → (k, v) ∈ l → mapLookup l k = some v := by
  induction l with
  | nil => intro hnd hmem; simp at hmem
  | cons p rest ih =>
    intro hnd hmem
    rw [List.map_cons] at hnd
    have hnd2 := List.nodup_cons.mp hnd
    rcases List.mem_cons.mp hmem with h | h
    · rw [← h]
      unfold mapLookup
      rw [List.find?_cons_of_pos rest (by simp)]
      rfl
    · have hk : k ∈ rest.map Prod.fst := List.mem_map.mpr ⟨(k, v), h, rfl⟩
      have hne : p.1 ≠ k := fun hc => hnd2.1 (hc ▸ hk)
      unfold mapLookup
      rw [List.find?_cons_of_neg rest (by simp [hne])]
      exact ih hnd2.2 h

theorem mapSet_of_lookup_self {α : Type} {l : List (String × α)} {k : String} {v : α} :
    mapLookup l k = some v → mapSet l k v = l := by
  induction l with
  | nil => intro h; simp [mapLookup] at h
  | cons p rest ih =>
    intro h
    by_cases hk : (p.1 == k) = true
    · simp only [mapLookup, List.find?_cons, hk, cond_true, Option.map_some] at h
      have hv : p.2 = v := by injection h
      unfold mapSet
      rw [if_pos hk, ← beq_iff_eq.mp hk, ← hv]
    · have h2 : mapLookup rest k = some v := by
        simpa only [mapLookup, List.find?_cons, hk, cond_false] using h
      unfold mapSet
      rw [if_neg hk, ih h2]

theorem mapLookup_append_self {α : Type} {l : List (String × α)} {k : String} (v : α) :
    mapLookup l k = none → mapLookup (l ++ [(k, v)]) k = some v := by
  induction l with
  | nil =>
    intro h
    unfold mapLookup
    simp only [List.nil_append]
    rw [List.find?_cons_of_pos [] (by simp)]
    rfl
  | cons p rest ih =>
    intro h
    by_cases hk : (p.1 == k) = true
    · simp only [mapLookup, List.find?_cons, hk, cond_true, Option.map_some] at h
      exact absurd h (by simp)
    · have h2 : mapLookup rest k = none := by
        simpa only [mapLookup, List.find?_cons, hk, cond_false] using h
      unfold mapLookup
      rw [List.cons_append, List.find?_cons_of_neg _ (by simp [hk])]
      exact ih h2

theorem mapSet_append_of_none {α : Type} {l : List (String × α)} {k : String} :
    mapLookup l k = none → ∀ v, mapSet l k v = l ++ [(k, v)] := by
  induction l with
  | nil => intro h v; rfl
  | cons p rest ih =>
    intro h v
    by_cases hk : (p.1 == k) = true
    · simp only [mapLookup, List.find?_cons, hk, cond_true, Option.map_some] at h
      exact absurd h (by simp)
    · have h2 : mapLookup rest k = none := by
        simpa only [mapLookup, List.find?_cons, hk, cond_false] using h
      unfold mapSet
      rw [if_neg hk, List.cons_append, ih h2 v]

theorem mapLookup_none_of_not_mem_keys {α : Type} {l : List (String × α)} {k : String} :
    k ∉ l.map Prod.fst → mapLookup l k = none := by
  induction l with
  | nil => intro h; rfl
  | cons p rest ih =>
    intro h
    rw [List.map_cons, List.mem_cons] at h
    push_neg at h
    have hne : (p.1 == k) = false := beq_eq_false_iff_ne.mpr (fun hc => h.1 hc.symm)
    unfold mapLookup
    rw [List.find?_cons_of_neg rest (by simp [hne])]
    exact ih h.2

theorem lookup_isSome_of_mem_keys {α : Type} {l : List (String × α)} {k : String} :
    k ∈ l.map Prod.fst → ∃ v, mapLookup l k = some v := by
  induction l with
  | nil => intro h; simp at h
  | cons p rest ih =>
    intro h
    by_cases hk : (p.1 == k) = true
    · refine ⟨p.2, ?_⟩
      unfold mapLookup
      rw [List.find?_cons_of_pos rest hk]
      rfl
    · rw [List.map_cons, List.mem_cons] at h
      rcases h with h | h
      · exact absurd (beq_iff_eq.mpr h.symm) hk
      · obtain ⟨v, hv⟩ := ih h
        refine ⟨v, ?_⟩
        unfold mapLookup
        rw [List.find?_cons_of_neg rest (by simp [hk])]
        exact hv

theorem not_mem_keys_of_lookup_none {α : Type} {l : List (String × α)} {k : String}
    (h : mapLookup l k = none) : k ∉ l.map Prod.fst := by
  intro hmem
  obtain ⟨v, hv⟩ := lookup_isSome_of_mem_keys hmem
  rw [h] at hv
  exact Option.noConfusion hv

theorem mapSet_keys_nodup {α : Type} {l : List (String × α)} {k : String} {v : α}
    (hnd : (l.map Prod.fst).Nodup) :
    ((mapSet l k v).map Prod.fst).Nodup := by
  cases hl : mapLookup l k with
  | some w =>
    have hkeys := mapSet_keys_of_lookup hl v
    have hfst : (fun p : String × α => p.1) = Prod.fst := rfl
    rw [hfst] at hkeys
    rw [hkeys]
    exact hnd
  | none =>
    rw [mapSet_append_of_none hl v, List.map_append]
    rw [List.nodup_append]
    refine ⟨hnd, List.nodup_singleton _, fun x hx hy => ?_⟩
    simp only [List.map_cons, List.map_nil, List.mem_singleton] at hy
    subst hy
    exact not_mem_keys_of_lookup_none hl hx

theorem jsonSizeFields_append (l1 l2 : List (String × JValue)) :
    jsonSizeFields (l1 ++ l2) = jsonSizeFields l1 + jsonSizeFields l2 := by
  induction l1 with
  | nil => simp [jsonSizeFields]
  | cons p rest ih =>
    have e1 : jsonSizeFields ((p :: rest) ++ l2) =
        4 + p.1.utf8ByteSize + jsonSize p.2 + jsonSizeFields (rest ++ l2) := rfl
    have e2 : jsonSizeFields (p :: rest) =
        4 + p.1.utf8ByteSize + jsonSize p.2 + jsonSizeFields rest := rfl
    rw [e1, e2, ih]
    omega

theorem jsonSizeFields_mapSet {l : List (String × JValue)} {k : String} {v : JValue} :
    mapLookup l k = some v → ∀ w : JValue,
      jsonSizeFields (mapSet l k w) + jsonSize v = jsonSizeFields l + jsonSize w := by
  induction l with
  | nil => intro h w; simp [mapLookup] at h
  | cons p rest ih =>
    intro h w
    by_cases hk : (p.1 == k) = true
    · simp only [mapLookup, List.find?_cons, hk, cond_true, Option.map_some] at h
      have hv : p.2 = v := by injection h
      unfold mapSet
      rw [if_pos hk]
      have e1 : jsonSizeFields ((k, w) :: rest) =
          4 + k.utf8ByteSize + jsonSize w + jsonSizeFields rest := rfl
      have e2 : jsonSizeFields (p :: rest) =
          4 + p.1.utf8ByteSize + jsonSize p.2 + jsonSizeFields rest := rfl
      rw [e1, e2, ← hv, beq_iff_eq.mp hk]
      omega
    · have h2 : mapLookup rest k = some v := by
        simpa only [mapLookup, List.find?_cons, hk, cond_false] using h
      unfold mapSet
      rw [if_neg hk]
      have e1 : jsonSizeFields (p :: mapSet rest k w) =
          4 + p.1.utf8ByteSize + jsonSize p.2 + jsonSizeFields (mapSet rest k w) := rfl
      have e2 : jsonSizeFields (p :: rest) =
          4 + p.1.utf8ByteSize + jsonSize p.2 + jsonSizeFields rest := rfl
      rw [e1, e2]
      have := ih h2 w
      omega

theorem mapSet_ne_nil {α : Type} (l : List (String × α)) (k : String) (v : α) :
    mapSet l k v ≠ [] := by
  cases l with
  | nil => exact List.cons_ne_nil _ _
  | cons p rest =>
    unfold mapSet
    by_cases hk : (p.1 == k) = true
    · rw [if_pos hk]; exact List.cons_ne_nil _ _
    · rw [if_neg hk]; exact List.cons_ne_nil _ _

theorem jobj_mapSet {l : List (String × JValue)} {k : String} {v : JValue}
    (h : mapLookup l k = some v) (w : JValue) :
    jsonSize (JValue.jobj (mapSet l k w)) + jsonSize v =
      jsonSize (JValue.jobj l) + jsonSize w := by
  have hne : l ≠ [] := by intro hz; subst hz; simp [mapLookup] at h
  have hne2 : mapSet l k w ≠ [] := mapSet_ne_nil l k w
  simp only [jsonSize]
  rw [if_neg (by simp [hne2]), if_neg (by simp [hne])]
  have := jsonSizeFields_mapSet h w
  omega

theorem jobj_snoc (l : List (String × JValue)) (p : String × JValue) :
    jsonSize (JValue.jobj (l ++ [p])) =
      1 + jsonSizeFields l + (4 + p.1.utf8ByteSize + jsonSize p.2) := by
  simp only [jsonSize]
  rw [if_neg (by simp), jsonSizeFields_append]
  have e1 : jsonSizeFields [p] = 4 + p.1.utf8ByteSize + jsonSize p.2 + 0 := rfl
  rw [e1]
  omega

theorem jobj_append_lt (l : List (String × JValue)) (p : String × JValue) :
    jsonSize (JValue.jobj l) < jsonSize (JValue.jobj (l ++ [p])) := by
  rw [jobj_snoc]
  by_cases h : l = []
  · subst h
    have e1 : jsonSize (JValue.jobj []) = 2 := rfl
    have e2 : jsonSizeFields ([] : List (String × JValue)) = 0 := rfl
    rw [e1, e2]
    omega
  · simp only [jsonSize]
    rw [if_neg (by simp [h])]
    omega

theorem jobj_snoc2 (l : List (String × JValue)) (k : String) (w : JValue) :
    jsonSize (JValue.jobj (l ++ [(k, w)])) =
      1 + jsonSizeFields l + (4 + k.utf8ByteSize + jsonSize w) := by
  rw [jobj_snoc]

theorem entrySize_eq (e : RawDataEntry) :
    entrySize e = 22 + e.name.utf8ByteSize + jsonSize (JValue.jobj e.rawData) := by
  have h1 : entryNameFieldName.utf8ByteSize = 4 := by decide
  have h2 : entryRawDataFieldName.utf8ByteSize = 7 := by decide
  have e1 : entrySize e = 1 +
      (4 + entryNameFieldName.utf8ByteSize + (2 + e.name.utf8ByteSize) +
        (4 + entryRawDataFieldName.utf8ByteSize + jsonSize (JValue.jobj e.rawData) + 0)) := rfl
  rw [e1, h1, h2]
  omega

theorem jstr_truncated_size : jsonSize (JValue.jstr truncatedString) = sizeOfTruncated := by
  decide

theorem countedSize_le (v : JValue) : countedSize v ≤ jsonSize v := by
  unfold countedSize
  split
  · exact Nat.le_refl _
  · exact Nat.zero_le _

theorem entrySize_update {en : RawDataEntry} {k : String} {v : JValue}
    (h : mapLookup en.rawData k = some v) (w : JValue) :
    entrySize { en with rawData := mapSet en.rawData k w } + jsonSize v =
      entrySize en + jsonSize w := by
  rw [entrySize_eq, entrySize_eq]
  have hn : ({ en with rawData := mapSet en.rawData k w } : RawDataEntry).name = en.name := rfl
  have hr : ({ en with rawData := mapSet en.rawData k w } : RawDataEntry).rawData =
      mapSet en.rawData k w := rfl
  rw [hn, hr]
  have := jobj_mapSet h w
  omega

theorem entrySize_snoc (en : RawDataEntry) (p : String × JValue) :
    entrySize en < entrySize { en with rawData := en.rawData ++ [p] } := by
  rw [entrySize_eq, entrySize_eq]
  have hn : ({ en with rawData := en.rawData ++ [p] } : RawDataEntry).name = en.name := rfl
  have hr : ({ en with rawData := en.rawData ++ [p] } : RawDataEntry).rawData =
      en.rawData ++ [p] := rfl
  rw [hn, hr]
  have := jobj_append_lt en.rawData p
  omega

theorem jsonSizeList_set {l : List JValue} :
    ∀ {i : Nat}, i < l.length → ∀ (w d : JValue),
      jsonSizeList (l.set i w) + jsonSize (l.getD i d) = jsonSizeList l + jsonSize w := by
  induction l with
  | nil => intro i hi; simp at hi
  | cons a rest ih =>
    intro i hi w d
    cases i with
    | zero =>
      have e1 : jsonSizeList (w :: rest) = jsonSize w + 1 + jsonSizeList rest := rfl
      have e2 : jsonSizeList (a :: rest) = jsonSize a + 1 + jsonSizeList rest := rfl
      show jsonSizeList (w :: rest) + jsonSize a = jsonSizeList (a :: rest) + jsonSize w
      rw [e1, e2]
      omega
    | succ j =>
      have hj : j < rest.length := by simpa using hi
      have e1 : jsonSizeList (a :: rest.set j w) = jsonSize a + 1 + jsonSizeList (rest.set j w) := rfl
      have e2 : jsonSizeList (a :: rest) = jsonSize a + 1 + jsonSizeList rest := rfl
      show jsonSizeList (a :: rest.set j w) + jsonSize (rest.getD j d) =
        jsonSizeList (a :: rest) + jsonSize w
      rw [e1, e2]
      have := ih hj w d
      omega

theorem jarr_set {l : List JValue} {i : Nat} (hi : i < l.length) (w d : JValue) :
    jsonSize (JValue.jarr (l.set i w)) + jsonSize (l.getD i d) =
      jsonSize (JValue.jarr l) + jsonSize w := by
  have hne : l ≠ [] := by intro hz; subst hz; simp at hi
  have hne2 : l.set i w ≠ [] := by
    intro hz
    have hlen2 : (l.set i w).length = 0 := by rw [hz]; rfl
    rw [List.length_set] at hlen2
    omega
  simp only [jsonSize]
  rw [if_neg (by simp [hne2]), if_neg (by simp [hne])]
  have := jsonSizeList_set hi w d
  omega

theorem entitySize_update {e : SEntity} {entries : List RawDataEntry} {ri : Nat}
    (he : e.rawDataEntries = some entries) (hi : ri < entries.length) (en2 : RawDataEntry) :
    entitySize { e with rawDataEntries := some (entries.set ri en2) } +
        entrySize (entries.getD ri default) =
      entitySize e + entrySize en2 := by
  have h1 : entityToJValue { e with rawDataEntries := some (entries.set ri en2) } =
      JValue.jobj (e.props ++ [(rawDataFieldName,
        JValue.jarr ((entries.set ri en2).map entryToJValue))]) := rfl
  have h2 : entityToJValue e =
      JValue.jobj (e.props ++ [(rawDataFieldName,
        JValue.jarr (entries.map entryToJValue))]) := by
    unfold entityToJValue
    rw [he]
  unfold entitySize
  rw [h1, h2, jobj_snoc2, jobj_snoc2, List.map_set]
  have hlen : ri < (entries.map entryToJValue).length := by simpa using hi
  have h3 := jarr_set hlen (entryToJValue en2) (entryToJValue default)
  rw [getD_map entryToJValue entries ri hi default (entryToJValue default)] at h3
  have h4 : entrySize (entries.getD ri default) =
      jsonSize (entryToJValue (entries.getD ri default)) := rfl
  have h5 : entrySize en2 = jsonSize (entryToJValue en2) := rfl
  rw [h4, h5]
  omega

theorem batchSize_set {data : List SEntity} {ei : Nat} (hi : ei < data.length) (e2 : SEntity) :
    batchSize (data.set ei e2) + entitySize (data.getD ei default) =
      batchSize data + entitySize e2 := by
  unfold batchSize
  rw [List.map_set]
  have hlen : ei < (data.map entityToJValue).length := by simpa using hi
  have h := jarr_set hlen (entityToJValue e2) (entityToJValue default)
  rw [getD_map entityToJValue data ei hi default (entityToJValue default)] at h
  exact h

theorem BatchWF_update {data : List SEntity} {ei ri : Nat} {entries : List RawDataEntry}
    {k : String} {w : JValue} {en2 : RawDataEntry} {e2 : SEntity}
    (hwf : BatchWF data) (hei : ei < data.length)
    (hentries : (data.getD ei default).rawDataEntries = some entries)
    (hri : ri < entries.length)
    (hen2 : en2 = { entries.getD ri default with rawData := mapSet (entries.getD ri default).rawData k w })
    (he2 : e2 = { data.getD ei default with rawDataEntries := some (entries.set ri en2) }) :
    BatchWF (data.set ei e2) := by
  intro ex hex enx henx
  rcases List.mem_or_eq_of_mem_set hex with h | h
  · exact hwf ex h enx henx
  · subst h
    rw [he2] at henx
    have hre : ({ data.getD ei default with rawDataEntries := some (entries.set ri en2) } : SEntity).rawDataEntries.getD [] = entries.set ri en2 := rfl
    rw [hre] at henx
    have hmem : data.getD ei default ∈ data := getD_mem_of_lt hei default
    rcases List.mem_or_eq_of_mem_set henx with h2 | h2
    · exact hwf _ hmem enx (by rw [hentries]; exact h2)
    · subst h2
      rw [hen2]
      have hrd : ({ entries.getD ri default with rawData := mapSet (entries.getD ri default).rawData k w } : RawDataEntry).rawData = mapSet (entries.getD ri default).rawData k w := rfl
      rw [hrd]
      have hen : entries.getD ri default ∈ entries := getD_mem_of_lt hri default
      exact mapSet_keys_nodup (hwf _ hmem (entries.getD ri default) (by rw [hentries]; exact hen))

theorem shrinkIteration_fixpoint {data : List SEntity} {ei ri : Nat}
    {entries : List RawDataEntry} {k : String} {en2 : RawDataEntry} {e2 : SEntity}
    (hei : getLargestIdx (List.map entitySize data) = some ei)
    (hentries : (data.getD ei default).rawDataEntries = some entries)
    (hri : getLargestIdx (List.map entrySize entries) = some ri)
    (hzero : (getLargestItemKeyAndByteSize (entries.getD ri default).rawData).2 = 0)
    (hnone : mapLookup (entries.getD ri default).rawData k = none)
    (hen2 : en2 = { entries.getD ri default with rawData := mapSet (entries.getD ri default).rawData k (JValue.jstr truncatedString) })
    (he2 : e2 = { data.getD ei default with rawDataEntries := some (entries.set ri en2) }) :
    shrinkIteration (data.set ei e2) = Except.ok (data.set ei e2, sizeOfTruncated) := by
  have hlenei : ei < data.length := by
    have h1 := (getLargestIdx_spec hei).1
    rwa [List.length_map] at h1
  have hlenri : ri < entries.length := by
    have h1 := (getLargestIdx_spec hri).1
    rwa [List.length_map] at h1
  have hvalei := (getLargestIdx_spec hei).2.1
  have hvalri := (getLargestIdx_spec hri).2.1
  have hset : mapSet (entries.getD ri default).rawData k (JValue.jstr truncatedString) =
      (entries.getD ri default).rawData ++ [(k, JValue.jstr truncatedString)] :=
    mapSet_append_of_none hnone _
  have hSn : entrySize (entries.getD ri default) < entrySize en2 := by
    rw [hen2, hset]
    exact entrySize_snoc _ _
  have hEnt := entitySize_update hentries hlenri en2
  rw [← he2] at hEnt
  have hgdei : (List.map entitySize data).getD ei 0 = entitySize (data.getD ei default) :=
    getD_map entitySize data ei hlenei default 0
  have hgdri : (List.map entrySize entries).getD ri 0 = entrySize (entries.getD ri default) :=
    getD_map entrySize entries ri hlenri default 0
  have ha : getLargestIdx (List.map entitySize (data.set ei e2)) = some ei := by
    rw [List.map_set]
    exact getLargestIdx_set hei (by omega)
  have hd : getLargestIdx (List.map entrySize (entries.set ri en2)) = some ri := by
    rw [List.map_set]
    exact getLargestIdx_set hri (by omega)
  have hallzero : ∀ q ∈ (entries.getD ri default).rawData, countedSize q.2 = 0 := by
    intro q hq
    have hle2 : countedSize q.2 ≤ listMax ((entries.getD ri default).rawData.map
        (fun p => countedSize p.2)) :=
      le_listMax (List.mem_map.mpr ⟨q, hq, rfl⟩)
    rw [← getLargestItemKeyAndByteSize_snd] at hle2
    omega
  have hkv2 : getLargestItemKeyAndByteSize ((entries.getD ri default).rawData ++
      [(k, JValue.jstr truncatedString)]) = (k, 11) := by
    unfold getLargestItemKeyAndByteSize
    rw [largestItemAux_append, largestItemAux_zero hallzero]
    simp only [largestItemAux]
    rw [if_pos (by exact (by decide : (0 : Nat) < countedSize (JValue.jstr truncatedString)))]
    rfl
  have hlk2 : mapLookup ((entries.getD ri default).rawData ++
      [(k, JValue.jstr truncatedString)]) k = some (JValue.jstr truncatedString) :=
    mapLookup_append_self _ hnone
  have ha2 : getLargestEntityFromBatch (data.set ei e2) = some ei := ha
  have hd2 : getLargestRawDataEntryFromEntity (entries.set ri en2) = some ri := hd
  have hgd2 : (data.set ei e2).getD ei default = e2 :=
    getD_set_self hlenei e2 default
  have hgd3 : (entries.set ri en2).getD ri default = en2 :=
    getD_set_self hlenri en2 default
  have he2rde : e2.rawDataEntries = some (entries.set ri en2) := by rw [he2]
  have hen2rd : en2.rawData = (entries.getD ri default).rawData ++
      [(k, JValue.jstr truncatedString)] := by rw [hen2, hset]
  have hen2eta : { en2 with rawData := (entries.getD ri default).rawData ++ [(k, JValue.jstr truncatedString)] } = en2 := by
    rw [hen2, hset]
  have he2eta : { e2 with rawDataEntries := some (entries.set ri en2) } = e2 := by
    rw [he2]
  simp only [shrinkIteration, ha2, hgd2, he2rde, hd2, hgd3, hen2rd, hkv2,
    mapSet_of_lookup_self hlk2, hen2eta, List.set_set, he2eta]
  rfl

theorem shrinkIteration_ok {data data2 : List SEntity} {sz : Nat}
    (hwf : BatchWF data) (h : shrinkIteration data = Except.ok (data2, sz)) :
    BatchWF data2 ∧
      ((batchSize data2 : Int) ≤ (batchSize data : Int) - (sz : Int) + (sizeOfTruncated : Int) ∨
        (sz = 0 ∧ shrinkIteration data2 = Except.ok (data2, sizeOfTruncated))) := by
  cases hei : getLargestEntityFromBatch data with
  | none =>
    simp only [shrinkIteration, hei] at h
    exact Except.noConfusion h
  | some ei =>
    cases hentries : (data.getD ei default).rawDataEntries with
    | none =>
      simp only [shrinkIteration, hei, hentries] at h
      exact Except.noConfusion h
    | some entries =>
      cases hri : getLargestRawDataEntryFromEntity entries with
      | none =>
        simp only [shrinkIteration, hei, hentries, hri] at h
        exact Except.noConfusion h
      | some ri =>
        simp only [shrinkIteration, hei, hentries, hri] at h
        rw [Except.ok.injEq, Prod.mk.injEq] at h
        obtain ⟨hd2, hsz⟩ := h
        subst hd2
        subst hsz
        have hei2 : getLargestIdx (List.map entitySize data) = some ei := hei
        have hri2 : getLargestIdx (List.map entrySize entries) = some ri := hri
        have hlenei : ei < data.length := by
          have h1 := (getLargestIdx_spec hei2).1
          rwa [List.length_map] at h1
        have hlenri : ri < entries.length := by
          have h1 := (getLargestIdx_spec hri2).1
          rwa [List.length_map] at h1
        refine ⟨BatchWF_update hwf hlenei hentries hlenri rfl rfl, ?_⟩
        cases hlk : mapLookup (entries.getD ri default).rawData
            (getLargestItemKeyAndByteSize (entries.getD ri default).rawData).1 with
        | some v =>
          left
          have hEn := entrySize_update hlk (JValue.jstr truncatedString)
          rw [jstr_truncated_size] at hEn
          have hEnt := entitySize_update hentries hlenri { entries.getD ri default with rawData := mapSet (entries.getD ri default).rawData (getLargestItemKeyAndByteSize (entries.getD ri default).rawData).1 (JValue.jstr truncatedString) }
          have hB := batchSize_set hlenei { data.getD ei default with rawDataEntries := some (entries.set ri { entries.getD ri default with rawData := mapSet (entries.getD ri default).rawData (getLargestItemKeyAndByteSize (entries.getD ri default).rawData).1 (JValue.jstr truncatedString) }) }
          have hvs : (getLargestItemKeyAndByteSize (entries.getD ri default).rawData).2 ≤
              jsonSize v := by
            by_cases hp : 0 < (getLargestItemKeyAndByteSize (entries.getD ri default).rawData).2
            · obtain ⟨v0, hmem, hcs⟩ := getLargestItemKeyAndByteSize_mem hp
              have hmem1 : data.getD ei default ∈ data := getD_mem_of_lt hlenei default
              have hmem2 : entries.getD ri default ∈ entries := getD_mem_of_lt hlenri default
              have hnd := hwf _ hmem1 (entries.getD ri default)
                (by rw [hentries]; exact hmem2)
              have hl0 := mapLookup_of_mem_nodup hnd hmem
              rw [hlk] at hl0
              injection hl0 with hveq
              rw [← hveq] at hcs
              rw [← hcs]
              exact countedSize_le v
            · omega
          simp only [] at hEn hEnt hB ⊢
          omega
        | none =>
          right
          have hzero : (getLargestItemKeyAndByteSize (entries.getD ri default).rawData).2
              = 0 := by
            by_contra hc
            obtain ⟨v0, hmem, hcs⟩ :=
              getLargestItemKeyAndByteSize_mem (Nat.pos_of_ne_zero hc)
            have hmem1 : data.getD ei default ∈ data := getD_mem_of_lt hlenei default
            have hmem2 : entries.getD ri default ∈ entries := getD_mem_of_lt hlenri default
            have hnd := hwf _ hmem1 (entries.getD ri default)
              (by rw [hentries]; exact hmem2)
            have hl0 := mapLookup_of_mem_nodup hnd hmem
            rw [hlk] at hl0
            exact Option.noConfusion hl0
          exact ⟨hzero, shrinkIteration_fixpoint hei2 hentries hri2 hzero hlk rfl rfl⟩

theorem shrinkLoop_fix {maxSize : Int} {data : List SEntity}
    (hfix : shrinkIteration data = Except.ok (data, sizeOfTruncated)) :
    ∀ (fuel : Nat) (ts : Int) (k : Nat), maxSize < ts →
      shrinkLoop maxSize fuel data ts k = none := by
  intro fuel
  induction fuel with
  | zero => intro ts k hts; rfl
  | succ n ih =>
    intro ts k hts
    show shrinkLoop maxSize (n + 1) data ts k = none
    simp only [shrinkLoop]
    rw [if_pos hts, hfix]
    have harg : ts - ((sizeOfTruncated : Nat) : Int) + ((sizeOfTruncated : Nat) : Int) =
        ts := by omega
    show shrinkLoop maxSize n data
      (ts - ((sizeOfTruncated : Nat) : Int) + ((sizeOfTruncated : Nat) : Int)) (k + 1) = none
    rw [harg]
    exact ih ts (k + 1) hts

theorem shrinkLoop_sound {maxSize : Int} :
    ∀ (fuel : Nat) {data : List SEntity} {ts : Int} {k : Nat}
      {res : ShrinkRawDataResults} {data2 : List SEntity},
      BatchWF data → (batchSize data : Int) ≤ ts →
      shrinkLoop maxSize fuel data ts k = some (Except.ok (res, data2)) →
      res.totalSize ≤ maxSize ∧ (batchSize data2 : Int) ≤ res.totalSize := by
  intro fuel
  induction fuel with
  | zero =>
    intro data ts k res data2 hwf hle h
    exact Option.noConfusion h
  | succ n ih =>
    intro data ts k res data2 hwf hle h
    simp only [shrinkLoop] at h
    by_cases hts : maxSize < ts
    · rw [if_pos hts] at h
      cases hit : shrinkIteration data with
      | error e =>
        rw [hit] at h
        simp at h
      | ok pr =>
        obtain ⟨d2, sz⟩ := pr
        rw [hit] at h
        have h2 : shrinkLoop maxSize n d2 (ts - (sz : Int) + (sizeOfTruncated : Int)) (k + 1)
            = some (Except.ok (res, data2)) := h
        obtain ⟨hwf2, hcase⟩ := shrinkIteration_ok hwf hit
        rcases hcase with hgood | ⟨hsz0, hfix⟩
        · exact ih hwf2 (by omega) h2
        · subst hsz0
          have hnone := @shrinkLoop_fix maxSize d2 hfix n
            (ts - ((0 : Nat) : Int) + ((sizeOfTruncated : Nat) : Int)) (k + 1) (by omega)
          rw [h2] at hnone
          exact Option.noConfusion hnone
    · rw [if_neg hts] at h
      have h2 : some (Except.ok
          (({ initialSize := 0, totalSize := ts, itemsRemoved := k } : ShrinkRawDataResults),
            data)) = some (Except.ok (res, data2)) := h
      rw [Option.some.injEq, Except.ok.injEq, Prod.mk.injEq] at h2
      obtain ⟨hres, hdata⟩ := h2
      subst hdata
      refine ⟨?_, ?_⟩
      · rw [← hres]
        show ts ≤ maxSize
        omega
      · rw [← hres]
        exact hle

/-- C3: for every well-formed batch (JavaScript objects cannot carry duplicate
keys) on which `shrinkRawData(batch, maxSize)` returns normally — some fuel
makes the while loop exit without throwing — the reported `totalSize` is at
most `maxSize`, and the JSON-serialized byte length of the mutated batch is at
most `maxSize` as well. -/
theorem shrinkRawData_within_maxSize {fuel : Nat} {data data2 : List SEntity}
    {maxSize : Int} {res : ShrinkRawDataResults}
    (hwf : BatchWF data)
    (h : shrinkRawData fuel data maxSize = some (Except.ok (res, data2))) :
    res.totalSize ≤ maxSize ∧ (batchSize data2 : Int) ≤ maxSize := by
  simp only [shrinkRawData] at h
  cases hl : shrinkLoop maxSize fuel data ((batchSize data : Int)) 0 with
  | none =>
    rw [hl] at h
    exact Option.noConfusion h
  | some exc =>
    cases exc with
    | error e =>
      rw [hl] at h
      simp at h
    | ok pr =>
      obtain ⟨res0, d2⟩ := pr
      rw [hl] at h
      have h2 : some (Except.ok
          (({ res0 with initialSize := (batchSize data : Int) } : ShrinkRawDataResults), d2))
          = some (Except.ok (res, data2)) := h
      rw [Option.some.injEq, Except.ok.injEq, Prod.mk.injEq] at h2
      obtain ⟨hres, hdata⟩ := h2
      subst hdata
      obtain ⟨h1, h2b⟩ := shrinkLoop_sound fuel hwf (le_refl _) hl
      constructor
      · rw [← hres]
        show res0.totalSize ≤ maxSize
        exact h1
      · exact le_trans h2b h1

/-- Witness for C3: the 79-byte example batch shrinks under `maxSize = 70` to
a 57-byte batch with one truncated item, and the theorem's bounds hold. -/
theorem shrinkRawData_within_maxSize_witness :
    BatchWF w3Batch ∧
      shrinkRawData 3 w3Batch 70 = some (Except.ok
        ({ initialSize := 79, totalSize := 57, itemsRemoved := 1 }, w3Batch2)) ∧
      ({ initialSize := 79, totalSize := 57, itemsRemoved := 1 } :
          ShrinkRawDataResults).totalSize ≤ 70 ∧
      (batchSize w3Batch2 : Int) ≤ 70 := by
  have hwf : BatchWF w3Batch := by decide
  have hrun : shrinkRawData 3 w3Batch 70 = some (Except.ok
      ({ initialSize := 79, totalSize := 57, itemsRemoved := 1 }, w3Batch2)) := by rfl
  have hmain := shrinkRawData_within_maxSize hwf hrun
  exact ⟨hwf, hrun, hmain.1, hmain.2⟩

end IntegrationSdk
